import Mathlib

/-!
# Verification of the debt-tracker balance-aggregation engine

Shallow embedding of the pending-balance aggregation and due-date projection
logic of the debt-tracker repository (files `src/unnamed/part_000 .. part_004`),
together with theorems settling the frozen claims about it.

Modelling conventions:

* JS numbers are modelled by `JNum`: a finite value is an exact rational
  (`JNum.fin q`); `JNum.nan` stands for any non-finite value (`NaN`, `±Infinity`).
  Addition, subtraction, `Math.max(0,·)` and `<=` absorb / reject non-finite
  values exactly as IEEE comparisons do at the granularity the code observes
  (the code only distinguishes finite values from non-finite ones).
  IEEE rounding of finite doubles is outside the model: finite arithmetic is exact.
* JS strings are modelled by `JStr := List Char` (UTF-16 code-unit lists for the
  BMP fragment the app uses); `<` on strings is code-unit lexicographic order.
* A JS `Map` is modelled by `JsMap`: an insertion-ordered association list;
  `Map.set` updates an existing key in place and appends a fresh key,
  `Map.get` returns `Option`.
* Dates are modelled at calendar-day granularity: `civilDays y m 1 + (d-1)`
  is the number of days since 1970-01-01 (Gregorian, proleptic). The host is
  assumed to run in a fixed-offset timezone (no DST), which makes local-date
  arithmetic exact; where the code mixes UTC (`Date.parse`) and local
  (`new Date(y,m,d)`) instants, the fixed offset appears as an explicit
  parameter (`tzMs`).
* `Number(string)` and string interpolation of numbers are modelled on the
  fragment the date code exercises: strings of decimal digits (and the empty
  string, which coerces to 0); anything else coerces to the non-finite marker.
-/

/-- JS number: exact rational for finite values, `nan` for any non-finite value. -/
inductive JNum where
  | nan : JNum
  | fin : ℚ → JNum
deriving DecidableEq, Repr

namespace JNum

/-- IEEE-style addition at the finite/non-finite granularity: any non-finite
operand makes the result non-finite. -/
def add : JNum → JNum → JNum
  | fin a, fin b => fin (a + b)
  | _, _ => nan

instance : Add JNum := ⟨add⟩

instance : Zero JNum := ⟨fin 0⟩

/-- IEEE-style subtraction: any non-finite operand makes the result non-finite. -/
def sub : JNum → JNum → JNum
  | fin a, fin b => fin (a - b)
  | _, _ => nan

instance : Sub JNum := ⟨sub⟩

theorem add_def (a b : JNum) : a + b = add a b := rfl

theorem zero_def : (0 : JNum) = fin 0 := rfl

instance : AddCommMonoid JNum where
  add_assoc a b c := by
    cases a <;> cases b <;> cases c <;> simp [add_def, add] <;> ring
  zero_add a := by cases a <;> simp [add_def, add, zero_def]
  add_zero a := by cases a <;> simp [add_def, add, zero_def]
  add_comm a b := by
    cases a <;> cases b <;> simp [add_def, add] <;> ring
  nsmul := nsmulRec

/-- `Math.max(0, x)`: `Math.max` propagates `NaN`; on the collapsed
finite/non-finite model every non-finite input yields the marker. -/
def max0 : JNum → JNum
  | fin a => fin (max 0 a)
  | nan => nan

/-- The JS `<=` comparison: always false when a non-finite (`NaN`) operand is
involved.  (`Infinity <= 0` is false as well, so collapsing non-finite values
is sound for comparisons against finite bounds used by the code.) -/
def jle : JNum → JNum → Bool
  | fin a, fin b => decide (a ≤ b)
  | _, _ => false

/-- JS truthiness of a number: `0`, `-0` and `NaN` are falsy. -/
def truthy : JNum → Bool
  | fin q => decide (q ≠ 0)
  | nan => false

end JNum

/-- JS string, modelled as its list of code units. -/
abbrev JStr := List Char

/-- JS `<` on strings: code-unit lexicographic comparison. -/
def jstrLt : JStr → JStr → Bool
  | [], [] => false
  | [], _ :: _ => true
  | _ :: _, [] => false
  | a :: as, b :: bs => if a < b then true else if b < a then false else jstrLt as bs

theorem jstrLt_trans : ∀ {a b c : JStr}, jstrLt a b = true → jstrLt b c = true →
    jstrLt a c = true := by
  intro a
  induction a with
  | nil =>
    intro b c _ hbc
    cases c with
    | nil => cases b <;> simp [jstrLt] at hbc
    | cons z zs => simp [jstrLt]
  | cons x xs ih =>
    intro b c hab hbc
    cases b with
    | nil => simp [jstrLt] at hab
    | cons y ys =>
      cases c with
      | nil => simp [jstrLt] at hbc
      | cons z zs =>
        simp only [jstrLt] at hab hbc ⊢
        rcases lt_trichotomy x y with hxy | hxy | hxy
        · rcases lt_trichotomy y z with hyz | hyz | hyz
          · simp [lt_trans hxy hyz]
          · subst hyz; simp [hxy]
          · simp [lt_asymm hyz, hyz] at hbc
        · subst hxy
          simp [lt_irrefl] at hab
          rcases lt_trichotomy x z with hxz | hxz | hxz
          · simp [hxz]
          · subst hxz
            simp [lt_irrefl] at hbc ⊢
            exact ih hab hbc
          · simp [lt_asymm hxz, hxz] at hbc
        · simp [lt_asymm hxy, hxy] at hab

theorem jstrLt_trichotomy (a b : JStr) :
    jstrLt a b = true ∨ a = b ∨ jstrLt b a = true := by
  induction a generalizing b with
  | nil => cases b <;> simp [jstrLt]
  | cons x xs ih =>
    cases b with
    | nil => simp [jstrLt]
    | cons y ys =>
      rcases lt_trichotomy x y with hxy | hxy | hxy
      · left; simp [jstrLt, hxy]
      · subst hxy
        rcases ih ys with h | h | h
        · left; simp [jstrLt, h]
        · right; left; simp [h]
        · right; right; simp [jstrLt, h]
      · right; right; simp [jstrLt, hxy]

theorem jstrLt_irrefl (a : JStr) : jstrLt a a = false := by
  induction a with
  | nil => rfl
  | cons x xs ih => simp [jstrLt, ih]

/-- The non-strict order `¬ (b < a)` induced by the JS string comparison is
transitive. -/
theorem jstrLe_trans {a b c : JStr} (hab : ¬ jstrLt b a = true)
    (hbc : ¬ jstrLt c b = true) : ¬ jstrLt c a = true := by
  intro hca
  rcases jstrLt_trichotomy b a with h | h | h
  · exact hab h
  · subst h; exact hbc hca
  · exact hbc (jstrLt_trans hca h)

/-- JS `Map`, modelled as an insertion-ordered association list with unique keys. -/
abbrev JsMap (α : Type) := List (JStr × α)

/-- `Map.get`: the value stored at `k`, if present. -/
def jget {α : Type} : JsMap α → JStr → Option α
  | [], _ => none
  | (k', v') :: rest, k => if k' = k then some v' else jget rest k

/-- `Map.set`: update the value at an existing key in place (keeping its
position), or append a fresh key at the end. -/
def jset {α : Type} : JsMap α → JStr → α → JsMap α
  | [], k, v => [(k, v)]
  | (k', v') :: rest, k, v =>
      if k' = k then (k, v) :: rest else (k', v') :: jset rest k v

/-- The values of the map, in insertion order (`Map.values()`). -/
def jvalues {α : Type} (m : JsMap α) : List α := m.map Prod.snd

theorem jget_jset_self {α : Type} (m : JsMap α) (k : JStr) (v : α) :
    jget (jset m k v) k = some v := by
  induction m with
  | nil => simp [jget, jset]
  | cons e rest ih =>
    obtain ⟨k', v'⟩ := e
    by_cases h : k' = k <;> simp [jget, jset, h, ih]

theorem jget_jset_ne {α : Type} (m : JsMap α) {k k' : JStr} (v : α)
    (h : k' ≠ k) : jget (jset m k' v) k = jget m k := by
  induction m with
  | nil => simp [jget, jset, h]
  | cons e rest ih =>
    obtain ⟨k'', v''⟩ := e
    by_cases h2 : k'' = k'
    · subst h2; simp [jget, jset, h]
    · simp [jset, h2]
      by_cases h3 : k'' = k <;> simp [jget, h3, ih]

/-! ## Calendar-day arithmetic (models the `Date` fragment the code uses) -/

/-- Gregorian leap year. -/
def isLeap (y : ℤ) : Bool := y % 4 = 0 ∧ (y % 100 ≠ 0 ∨ y % 400 = 0)

/-- Number of days of month `m` (1..12) of year `y`. -/
def daysInMonth (y m : ℤ) : ℤ :=
  if m = 2 then (if isLeap y then 29 else 28)
  else if m = 4 ∨ m = 6 ∨ m = 9 ∨ m = 11 then 30
  else 31

/-- Days from 1970-01-01 to the first day of month `m` (1..12) of year `y`
(proleptic Gregorian; Howard Hinnant's `days_from_civil` with `d = 1`). -/
def civilDays (y m : ℤ) : ℤ :=
  let y' := if m ≤ 2 then y - 1 else y
  let era := y'.fdiv 400
  let yoe := y' - era * 400
  let mp := (m + 9).emod 12
  let doy := (153 * mp + 2).fdiv 5
  let doe := yoe * 365 + yoe.fdiv 4 - yoe.fdiv 100 + doy
  era * 146097 + doe - 719468

/-- The epoch day selected by `new Date(y, m-1, d)` (local time, day part):
the constructor maps two-digit years to 19xx and normalizes out-of-range
month/day by linear carry, which this function reproduces. -/
def jsDateDays (y m d : ℤ) : ℤ :=
  let yFix := if 0 ≤ y ∧ y ≤ 99 then y + 1900 else y
  let yN := yFix + (m - 1).fdiv 12
  let mN := (m - 1).emod 12 + 1
  civilDays yN mN + (d - 1)

/-- Adding to the day argument of `new Date(y, m-1, d)` shifts the epoch day
by the same amount. -/
theorem jsDateDays_add (y m d k : ℤ) :
    jsDateDays y m (d + k) = jsDateDays y m d + k := by
  simp only [jsDateDays]
  ring

/-- A character `'0'..'9'`. -/
def isDigitCh (c : Char) : Bool := '0' ≤ c ∧ c ≤ '9'

/-- Numeric value of a digit character. -/
def digitVal (c : Char) : ℕ := c.toNat - 48

/-- The natural number denoted by a (big-endian) digit string. -/
def digitsToNat (s : JStr) : ℕ := Nat.ofDigits 10 ((s.map digitVal).reverse)

/-- `Number(string)` on the fragment the date code exercises: the empty string
coerces to `0`, a non-empty all-digit string to its decimal value, and anything
else (out of the modelled fragment) to the non-finite marker. -/
def jsStrNum (s : JStr) : JNum :=
  if s.isEmpty then JNum.fin 0
  else if s.all isDigitCh then JNum.fin (digitsToNat s : ℚ)
  else JNum.nan

/-- `String(n)` for a natural number: its decimal digits. -/
def natToJStr (n : ℕ) : JStr :=
  if n = 0 then ['0']
  else ((Nat.digits 10 n).reverse.map (fun d => Char.ofNat (48 + d)))

/-- `String(x)` for a JS number, on the fragment the date code exercises
(non-negative integers); other values are out of the modelled fragment. -/
def jnumToStr : JNum → JStr
  | JNum.fin q => if q.den = 1 ∧ 0 ≤ q.num then natToJStr q.num.toNat else ['?']
  | JNum.nan => ['N', 'a', 'N']

/-- `s.padStart(n, "0")`. -/
def padStartZero (n : ℕ) (s : JStr) : JStr :=
  List.replicate (n - s.length) '0' ++ s

/-- `s.split(c)` (single-character separator), as in JS: `"".split("-") = [""]`,
separators at the ends produce empty fields. -/
def splitOnCh (c : Char) : JStr → List JStr
  | [] => [[]]
  | x :: xs =>
      if x = c then [] :: splitOnCh c xs
      else
        match splitOnCh c xs with
        | [] => [[x]]
        | p :: ps => (x :: p) :: ps

theorem splitOnCh_ne_nil (c : Char) (s : JStr) : splitOnCh c s ≠ [] := by
  induction s with
  | nil => simp [splitOnCh]
  | cons x xs ih =>
    simp only [splitOnCh]
    by_cases h : x = c
    · simp [h]
    · simp only [h, if_false]
      rcases hs : splitOnCh c xs with _ | ⟨p, ps⟩
      · simp
      · simp

/-- Splitting a string with no separator yields the single field. -/
theorem splitOnCh_of_not_mem (c : Char) (s : JStr) (h : c ∉ s) :
    splitOnCh c s = [s] := by
  induction s with
  | nil => simp [splitOnCh]
  | cons x xs ih =>
    simp only [List.mem_cons, not_or] at h
    have hx : x ≠ c := fun hxc => h.1 hxc.symm
    simp only [splitOnCh, hx, if_false]
    rw [ih h.2]

/-- Splitting peels off a separator-free field before a separator. -/
theorem splitOnCh_append (c : Char) (a rest : JStr) (h : c ∉ a) :
    splitOnCh c (a ++ c :: rest) = a :: splitOnCh c rest := by
  induction a with
  | nil => simp [splitOnCh]
  | cons x xs ih =>
    simp only [List.mem_cons, not_or] at h
    have hx : x ≠ c := fun hxc => h.1 hxc.symm
    simp only [List.cons_append, splitOnCh, hx, if_false]
    rw [List.append_eq, ih h.2]

/-- JS truthiness of a string: only the empty string is falsy. -/
def strTruthy (s : JStr) : Bool := !s.isEmpty

/-- Strict parse of a `"YYYY-MM-DD"` date string (the ECMAScript date-time
string format used by `Date.parse` / `new Date(s + "T00:00:00")` on the
well-formed dates the app produces): exactly 4-2-2 digits with dashes, month
1..12, day within the month.  Anything else yields an invalid date (`none`). -/
def parseYMD (s : JStr) : Option (ℤ × ℤ × ℤ) :=
  match s with
  | [y1, y2, y3, y4, h1, m1, m2, h2, d1, d2] =>
    if h1 = '-' ∧ h2 = '-' ∧
       [y1, y2, y3, y4, m1, m2, d1, d2].all isDigitCh then
      let y : ℤ := digitsToNat [y1, y2, y3, y4]
      let mo : ℤ := digitsToNat [m1, m2]
      let da : ℤ := digitsToNat [d1, d2]
      if 1 ≤ mo ∧ mo ≤ 12 ∧ 1 ≤ da ∧ da ≤ daysInMonth y mo then
        some (y, mo, da)
      else none
    else none
  | _ => none

/-- `Math.round` on an exact rational: round half away from zero is
round-half-up for the non-negative values the code feeds it. -/
def jsRound (q : ℚ) : ℤ := ⌊q + 1 / 2⌋

/-! ## Data model (rows as loaded from the store)

Fields the aggregators never read (`user_id`, `created_at`, timestamps) are
omitted; `number | null` columns are `Option JNum`, nullable text columns are
`Option JStr`. -/

/-- A `cards` row. -/
structure CardRow where
  id : JStr
  name : JStr
  bank : Option JStr
  credit_limit : Option JNum
  currency : Option JStr
  notes : Option JStr
deriving DecidableEq, Repr

/-- A `statements` row. -/
structure StatementRow where
  id : JStr
  card_id : JStr
  statement_month : JStr
  statement_date : Option JStr
  due_date : Option JStr
  statement_amount : Option JNum
  currency : Option JStr
deriving DecidableEq, Repr

/-- A `payments` row. -/
structure PaymentRow where
  id : JStr
  kind : JStr
  card_id : Option JStr
  statement_id : Option JStr
  payment_date : JStr
  amount : Option JNum
  currency : Option JStr
  note : Option JStr
deriving DecidableEq, Repr

/-- `map.get(k) ?? 0` for a rational-valued map. -/
def lookup0 (m : JsMap ℚ) (k : JStr) : ℚ := (jget m k).getD 0

/-- `map.get(k) ?? 0` for a JS-number-valued map. -/
def lookupJ (m : JsMap JNum) (k : JStr) : JNum := (jget m k).getD (JNum.fin 0)

/-- Truthiness of the nullable `statement_id` column: `null` and `""` are falsy. -/
def sidTruthy : Option JStr → Bool
  | none => false
  | some s => !s.isEmpty

/-- `safeNum` from `src/unnamed/part_003` (line 54): `Number(v)` if finite,
else 0.  `Number(null) = 0` is finite, so a missing amount also yields 0. -/
def safeNum : Option JNum → ℚ
  | some (JNum.fin q) => q
  | some JNum.nan => 0
  | none => 0

/-- The finite value of a `number | null` column under `Number(x ?? 0)`,
for rows whose column is not non-finite (0 for `null`). -/
def amtQ : Option JNum → ℚ
  | some (JNum.fin q) => q
  | _ => 0

/-! ## Paid-amount resolvers (payments → statement-id → paid sum)

Three textual variants occur in the source; all skip payments whose
`statement_id` is falsy (`null` or `""`), and differ in amount coercion. -/

/-- `paidMap` from `src/unnamed/part_001` (lines 66-73) and the identical
`paidMap` of the second dashboard in `src/unnamed/part_003` (lines 1131-1139):
adds `Number(p.amount ?? 0)` with no finiteness check, so one non-finite
amount poisons that statement's sum. -/
def paidMapNumber (ps : List PaymentRow) : JsMap JNum :=
  ps.foldl
    (fun m p =>
      match p.statement_id with
      | none => m
      | some sid =>
          if sid.isEmpty then m
          else jset m sid (lookupJ m sid + p.amount.getD (JNum.fin 0)))
    []

/-- `paidByStatement` from the first dashboard of `src/unnamed/part_003`
(lines 192-199): adds `safeNum(p.amount)`, so invalid amounts contribute 0. -/
def paidByStatement_p3 (ps : List PaymentRow) : JsMap ℚ :=
  ps.foldl
    (fun m p =>
      match p.statement_id with
      | none => m
      | some sid =>
          if sid.isEmpty then m
          else jset m sid (lookup0 m sid + safeNum p.amount))
    []

/-- `paidByStatement` from `src/unnamed/part_004` (lines 172-181): computes
`Number(p.amount ?? 0)` and skips the row if it is not finite. -/
def paidByStatement_p4 (ps : List PaymentRow) : JsMap ℚ :=
  ps.foldl
    (fun m p =>
      match p.statement_id with
      | none => m
      | some sid =>
          if sid.isEmpty then m
          else
            match p.amount.getD (JNum.fin 0) with
            | JNum.nan => m
            | JNum.fin q => jset m sid (lookup0 m sid + q))
    []

/-! ## Pending-balance calculators and per-card rollups -/

/-- The inline per-statement pending of `StatementsPage` in
`src/unnamed/part_001` (lines 321-323): `Number(s.statement_amount ?? 0)`
minus `paidMap.get(s.id) ?? 0`, with no clamp. -/
def stmtPending_p1 (s : StatementRow) (paid : JsMap JNum) : JNum :=
  s.statement_amount.getD (JNum.fin 0) - lookupJ paid s.id

/-- The inline per-statement pending displayed by the first dashboard of
`src/unnamed/part_003` (lines 778-780): `Math.max(0, safeNum(amount) - paid)`. -/
def stmtPendingShown_p3 (s : StatementRow) (paid : JsMap ℚ) : ℚ :=
  max 0 (safeNum s.statement_amount - lookup0 paid s.id)

/-- The inline per-statement pending displayed by the dashboard of
`src/unnamed/part_004` (lines 764-766): `Number(amount ?? 0) - paid`, no clamp. -/
def stmtPendingShown_p4 (s : StatementRow) (paid : JsMap ℚ) : JNum :=
  s.statement_amount.getD (JNum.fin 0) - JNum.fin (lookup0 paid s.id)

/-- `pendingByCard` from the first dashboard of `src/unnamed/part_003`
(lines 201-210): accumulates `Math.max(0, safeNum(amount) - paid)` per card. -/
def pendingByCard_p3 (sts : List StatementRow) (paid : JsMap ℚ) : JsMap ℚ :=
  sts.foldl
    (fun m s =>
      jset m s.card_id
        (lookup0 m s.card_id + max 0 (safeNum s.statement_amount - lookup0 paid s.id)))
    []

/-- `pendingByCard` from the second dashboard of `src/unnamed/part_003`
(lines 1141-1151): accumulates `Math.max(0, Number(amount ?? 0) - paid)` per
card, where `paid` comes from the `Number`-coercing `paidMap`. -/
def pendingByCard_v2 (sts : List StatementRow) (paid : JsMap JNum) : JsMap JNum :=
  sts.foldl
    (fun m s =>
      jset m s.card_id
        (lookupJ m s.card_id +
          JNum.max0 (s.statement_amount.getD (JNum.fin 0) - lookupJ paid s.id)))
    []

/-- `pendingByCard` from `src/unnamed/part_004` (lines 183-192): accumulates
the unclamped `Number(amount ?? 0) - paid` per card. -/
def pendingByCard_p4 (sts : List StatementRow) (paid : JsMap ℚ) : JsMap JNum :=
  sts.foldl
    (fun m s =>
      jset m s.card_id
        (lookupJ m s.card_id +
          (s.statement_amount.getD (JNum.fin 0) - JNum.fin (lookup0 paid s.id))))
    []

/-! ## Portfolio totals -/

/-- `totals.totalLimit` from the first dashboard of `src/unnamed/part_003`
(line 213): `cards.reduce((a, c) => a + safeNum(c.credit_limit), 0)`. -/
def totalLimit_p3 (cards : List CardRow) : ℚ :=
  cards.foldl (fun a c => a + safeNum c.credit_limit) 0

/-- `totals.totalPending` from the first dashboard of `src/unnamed/part_003`
(line 214): `cards.reduce((a, c) => a + (pendingByCard.get(c.id) ?? 0), 0)`. -/
def totalPending_p3 (cards : List CardRow) (sts : List StatementRow)
    (paid : JsMap ℚ) : ℚ :=
  cards.foldl (fun a c => a + lookup0 (pendingByCard_p3 sts paid) c.id) 0

/-- `totalPending` from the second dashboard of `src/unnamed/part_003`
(lines 1154-1157): `let t = 0; for (const v of pendingByCard.values()) t += v`. -/
def totalPending_v2 (sts : List StatementRow) (paid : JsMap JNum) : JNum :=
  (jvalues (pendingByCard_v2 sts paid)).foldl (· + ·) (JNum.fin 0)

/-- `totalPending` from `src/unnamed/part_004` (lines 196-204): a direct sum of
`Number(amount ?? 0) - paid` over all statements. -/
def totalPending_p4 (sts : List StatementRow) (paid : JsMap ℚ) : JNum :=
  sts.foldl
    (fun sum s =>
      sum + (s.statement_amount.getD (JNum.fin 0) - JNum.fin (lookup0 paid s.id)))
    (JNum.fin 0)

/-! ## Characterization of the accumulate-into-a-`Map` loop

All resolvers and rollups share the shape
`for (row of rows) m.set(key(row), (m.get(key(row)) ?? 0) + val(row))`,
possibly after skipping some rows.  `accumMap` captures that loop; the lemmas
below characterize its lookups and value sums. -/

/-- The accumulate loop `m.set(k, (m.get(k) ?? 0) + v)` over a row list. -/
def accumMap {α β : Type} [AddCommMonoid α] (key : β → JStr) (val : β → α)
    (l : List β) : JsMap α :=
  l.foldl (fun m b => jset m (key b) ((jget m (key b)).getD 0 + val b)) []

theorem accumMap_getD_aux {α β : Type} [AddCommMonoid α] (key : β → JStr)
    (val : β → α) (l : List β) (k : JStr) :
    ∀ m : JsMap α,
      (jget (l.foldl (fun m b => jset m (key b) ((jget m (key b)).getD 0 + val b)) m) k).getD 0
        = (jget m k).getD 0 + ((l.filter (fun b => key b = k)).map val).sum := by
  induction l with
  | nil => intro m; simp
  | cons b rest ih =>
    intro m
    simp only [List.foldl_cons]
    rw [ih]
    by_cases h : key b = k
    · subst h
      rw [jget_jset_self]
      simp [List.filter_cons, add_assoc]
    · rw [jget_jset_ne _ _ h]
      simp [List.filter_cons, h]

/-- Lookup-with-default-0 of the accumulate loop: the sum of `val` over the
rows whose key matches. -/
theorem accumMap_getD {α β : Type} [AddCommMonoid α] (key : β → JStr)
    (val : β → α) (l : List β) (k : JStr) :
    (jget (accumMap key val l) k).getD 0
      = ((l.filter (fun b => key b = k)).map val).sum := by
  have := accumMap_getD_aux key val l k []
  simpa [accumMap, jget] using this

theorem accumMap_mem_aux {α β : Type} [AddCommMonoid α] (key : β → JStr)
    (val : β → α) (l : List β) (k : JStr) :
    ∀ m : JsMap α,
      jget (l.foldl (fun m b => jset m (key b) ((jget m (key b)).getD 0 + val b)) m) k = none
        ↔ jget m k = none ∧ ∀ b ∈ l, key b ≠ k := by
  induction l with
  | nil => intro m; simp
  | cons b rest ih =>
    intro m
    simp only [List.foldl_cons]
    rw [ih]
    by_cases h : key b = k
    · subst h
      rw [jget_jset_self]
      simp
    · rw [jget_jset_ne _ _ h]
      constructor
      · rintro ⟨h1, h2⟩
        refine ⟨h1, ?_⟩
        intro x hx
        rcases List.mem_cons.mp hx with hx | hx
        · subst hx; exact h
        · exact h2 x hx
      · rintro ⟨h1, h2⟩
        exact ⟨h1, fun x hx => h2 x (List.mem_cons_of_mem _ hx)⟩

/-- A key is absent from the accumulate loop's map iff no row carries it. -/
theorem accumMap_eq_none {α β : Type} [AddCommMonoid α] (key : β → JStr)
    (val : β → α) (l : List β) (k : JStr) :
    jget (accumMap key val l) k = none ↔ ∀ b ∈ l, key b ≠ k := by
  have := accumMap_mem_aux key val l k []
  simpa [accumMap, jget] using this

theorem jvalues_jset_sum {α : Type} [AddCommMonoid α] (m : JsMap α) (k : JStr)
    (a : α) :
    (jvalues (jset m k ((jget m k).getD 0 + a))).sum = (jvalues m).sum + a := by
  induction m with
  | nil => simp [jset, jget, jvalues]
  | cons e rest ih =>
    obtain ⟨k', v'⟩ := e
    by_cases h : k' = k
    · subst h
      simp only [jset, jget, jvalues, List.map_cons, List.sum_cons,
        eq_self_iff_true, if_true, Option.getD_some]
      rw [add_assoc, add_comm a, ← add_assoc]
    · simp only [jset, jget, if_neg h, jvalues, List.map_cons, List.sum_cons] at ih ⊢
      rw [ih, add_assoc]

theorem accumMap_vsum_aux {α β : Type} [AddCommMonoid α] (key : β → JStr)
    (val : β → α) (l : List β) :
    ∀ m : JsMap α,
      (jvalues (l.foldl (fun m b => jset m (key b) ((jget m (key b)).getD 0 + val b)) m)).sum
        = (jvalues m).sum + (l.map val).sum := by
  induction l with
  | nil => intro m; simp
  | cons b rest ih =>
    intro m
    simp only [List.foldl_cons]
    rw [ih, jvalues_jset_sum]
    simp [add_assoc]

/-- The sum of all values of the accumulate loop's map is the sum of `val`
over all rows. -/
theorem accumMap_vsum {α β : Type} [AddCommMonoid α] (key : β → JStr)
    (val : β → α) (l : List β) :
    (jvalues (accumMap key val l)).sum = (l.map val).sum := by
  have := accumMap_vsum_aux key val l []
  simpa [accumMap, jvalues] using this

/-- Full characterization of the accumulate loop's lookups. -/
theorem accumMap_jget {α β : Type} [AddCommMonoid α] (key : β → JStr)
    (val : β → α) (l : List β) (k : JStr) :
    jget (accumMap key val l) k
      = if ∀ b ∈ l, key b ≠ k then none
        else some (((l.filter (fun b => key b = k)).map val).sum) := by
  by_cases h : ∀ b ∈ l, key b ≠ k
  · rw [if_pos h]
    exact (accumMap_eq_none key val l k).mpr h
  · rw [if_neg h]
    rcases hg : jget (accumMap key val l) k with _ | v
    · exact absurd ((accumMap_eq_none key val l k).mp hg) h
    · have := accumMap_getD key val l k
      rw [hg] at this
      simp only [Option.getD_some] at this
      rw [this]

/-! ## Resolvers as instances of the accumulate loop -/

/-- The key a linked payment accumulates into. -/
def payKey (p : PaymentRow) : JStr := p.statement_id.getD []

/-- `Number(p.amount ?? 0)` as a JS number. -/
def payAmtJ (p : PaymentRow) : JNum := p.amount.getD (JNum.fin 0)

theorem foldl_filter_eq {β γ : Type} (q : β → Bool) (f g : γ → β → γ)
    (hskip : ∀ c b, q b = false → f c b = c)
    (heq : ∀ c b, q b = true → f c b = g c b) :
    ∀ (l : List β) (c : γ), l.foldl f c = (l.filter q).foldl g c := by
  intro l
  induction l with
  | nil => intro c; rfl
  | cons b rest ih =>
    intro c
    simp only [List.foldl_cons, List.filter_cons]
    by_cases hb : q b
    · rw [if_pos hb, List.foldl_cons, ih, heq c b hb]
    · rw [if_neg hb, ih, hskip c b (by simpa using hb)]

theorem paidMapNumber_eq_accum (ps : List PaymentRow) :
    paidMapNumber ps
      = accumMap payKey payAmtJ (ps.filter (fun p => sidTruthy p.statement_id)) := by
  unfold paidMapNumber accumMap
  apply foldl_filter_eq
  · intro m p h
    rcases hs : p.statement_id with _ | s
    · rfl
    · simp only [sidTruthy, hs, Bool.not_eq_false'] at h
      simp [hs, h]
  · intro m p h
    rcases hs : p.statement_id with _ | s
    · simp [sidTruthy, hs] at h
    · simp only [sidTruthy, hs, Bool.not_eq_true'] at h
      simp [hs, h, payKey, payAmtJ, lookupJ]
      rfl

theorem paidByStatement_p3_eq_accum (ps : List PaymentRow) :
    paidByStatement_p3 ps
      = accumMap payKey (fun p => safeNum p.amount)
          (ps.filter (fun p => sidTruthy p.statement_id)) := by
  unfold paidByStatement_p3 accumMap
  apply foldl_filter_eq
  · intro m p h
    rcases hs : p.statement_id with _ | s
    · rfl
    · simp only [sidTruthy, hs, Bool.not_eq_false'] at h
      simp [hs, h]
  · intro m p h
    rcases hs : p.statement_id with _ | s
    · simp [sidTruthy, hs] at h
    · simp only [sidTruthy, hs, Bool.not_eq_true'] at h
      simp [hs, h, payKey, lookup0]

theorem paidByStatement_p4_eq_accum (ps : List PaymentRow) :
    paidByStatement_p4 ps
      = accumMap payKey (fun p => amtQ p.amount)
          (ps.filter (fun p =>
            sidTruthy p.statement_id && decide (p.amount ≠ some JNum.nan))) := by
  unfold paidByStatement_p4 accumMap
  apply foldl_filter_eq
  · intro m p h
    simp only [Bool.and_eq_false_iff] at h
    rcases hs : p.statement_id with _ | s
    · rfl
    · rcases h with h | h
      · simp only [sidTruthy, hs, Bool.not_eq_false'] at h
        simp [hs, h]
      · simp only [decide_eq_false_iff_not, not_not] at h
        simp [hs, h]
  · intro m p h
    simp only [Bool.and_eq_true, decide_eq_true_eq] at h
    obtain ⟨h1, h2⟩ := h
    rcases hs : p.statement_id with _ | s
    · simp [sidTruthy, hs] at h1
    · simp only [sidTruthy, hs, Bool.not_eq_true'] at h1
      rcases ha : p.amount with _ | a
      · simp [hs, h1, ha, amtQ, payKey, lookup0]
      · rcases a with _ | q
        · simp [ha] at h2
        · simp [hs, h1, ha, amtQ, payKey, lookup0]

theorem pendingByCard_p3_eq_accum (sts : List StatementRow) (paid : JsMap ℚ) :
    pendingByCard_p3 sts paid
      = accumMap (fun s => s.card_id)
          (fun s => max 0 (safeNum s.statement_amount - lookup0 paid s.id)) sts := rfl

theorem pendingByCard_v2_eq_accum (sts : List StatementRow) (paid : JsMap JNum) :
    pendingByCard_v2 sts paid
      = accumMap (fun s => s.card_id)
          (fun s => JNum.max0 (s.statement_amount.getD (JNum.fin 0) - lookupJ paid s.id))
          sts := rfl

theorem pendingByCard_p4_eq_accum (sts : List StatementRow) (paid : JsMap ℚ) :
    pendingByCard_p4 sts paid
      = accumMap (fun s => s.card_id)
          (fun s => s.statement_amount.getD (JNum.fin 0) - JNum.fin (lookup0 paid s.id))
          sts := rfl

/-! ## Lookup and value-sum characterizations of the resolvers -/


theorem filter_payKey (ps : List PaymentRow) (k : JStr) (hk : k ≠ []) :
    (ps.filter (fun p => sidTruthy p.statement_id)).filter (fun p => payKey p = k)
      = ps.filter (fun p => p.statement_id = some k) := by
  rw [List.filter_filter]
  apply List.filter_congr
  intro p _
  rcases hs : p.statement_id with _ | s
  · simp [sidTruthy, hs]
  · by_cases hsk : s = k
    · subst hsk
      have : s.isEmpty = false := by
        rcases s with _ | ⟨c, cs⟩
        · exact absurd rfl hk
        · rfl
      simp [payKey, sidTruthy, hs, this]
    · simp [payKey, sidTruthy, hs, hsk]

theorem filter_payKeyFin (ps : List PaymentRow) (k : JStr) (hk : k ≠ []) :
    (ps.filter (fun p =>
        sidTruthy p.statement_id && decide (p.amount ≠ some JNum.nan))).filter
      (fun p => payKey p = k)
      = ps.filter (fun p =>
          decide (p.statement_id = some k) && decide (p.amount ≠ some JNum.nan)) := by
  rw [List.filter_filter]
  apply List.filter_congr
  intro p _
  rcases hs : p.statement_id with _ | s
  · simp [sidTruthy, hs]
  · by_cases hsk : s = k
    · subst hsk
      have : s.isEmpty = false := by
        rcases s with _ | ⟨c, cs⟩
        · exact absurd rfl hk
        · rfl
      simp [payKey, sidTruthy, hs, this]
    · simp [payKey, sidTruthy, hs, hsk]

/-- Dropping the skip-non-finite conjunct does not change a sum of coerced
amounts, because the coercion sends non-finite amounts to 0 anyway. -/
theorem sum_amtQ_filter_fin (pred : PaymentRow → Bool) (ps : List PaymentRow) :
    ((ps.filter (fun p => pred p && decide (p.amount ≠ some JNum.nan))).map
        (fun p => amtQ p.amount)).sum
      = ((ps.filter pred).map (fun p => amtQ p.amount)).sum := by
  induction ps with
  | nil => rfl
  | cons p rest ih =>
    simp only [List.filter_cons]
    by_cases hp : pred p = true
    · by_cases hf : p.amount = some JNum.nan
      · simp [hp, hf, amtQ]
        simpa using ih
      · simp [hp, hf]
        simpa using ih
    · simp only [Bool.not_eq_true] at hp
      simp [hp]
      simpa using ih

theorem lookupJ_eq_getD_zero (m : JsMap JNum) (k : JStr) :
    lookupJ m k = (jget m k).getD 0 := rfl

/-- Per-statement lookup of the `Number`-coercing resolver: the (`NaN`-absorbing)
sum of `Number(amount ?? 0)` over exactly the payments linked to that statement. -/
theorem lookupJ_paidMapNumber (ps : List PaymentRow) (k : JStr) (hk : k ≠ []) :
    lookupJ (paidMapNumber ps) k
      = ((ps.filter (fun p => p.statement_id = some k)).map payAmtJ).sum := by
  rw [lookupJ_eq_getD_zero, paidMapNumber_eq_accum, accumMap_getD,
    filter_payKey ps k hk]

/-- Per-statement lookup of the `safeNum`-coercing resolver. -/
theorem lookup0_paidByStatement_p3 (ps : List PaymentRow) (k : JStr) (hk : k ≠ []) :
    lookup0 (paidByStatement_p3 ps) k
      = ((ps.filter (fun p => p.statement_id = some k)).map
          (fun p => safeNum p.amount)).sum := by
  show (jget (paidByStatement_p3 ps) k).getD 0 = _
  rw [paidByStatement_p3_eq_accum, accumMap_getD, filter_payKey ps k hk]

/-- Per-statement lookup of the skip-non-finite resolver. -/
theorem lookup0_paidByStatement_p4 (ps : List PaymentRow) (k : JStr) (hk : k ≠ []) :
    lookup0 (paidByStatement_p4 ps) k
      = ((ps.filter (fun p => p.statement_id = some k)).map
          (fun p => amtQ p.amount)).sum := by
  show (jget (paidByStatement_p4 ps) k).getD 0 = _
  rw [paidByStatement_p4_eq_accum, accumMap_getD, filter_payKeyFin ps k hk,
    sum_amtQ_filter_fin (fun p => decide (p.statement_id = some k)) ps]

/-- Sum of all values of the `Number`-coercing resolver. -/
theorem vsum_paidMapNumber (ps : List PaymentRow) :
    (jvalues (paidMapNumber ps)).sum
      = ((ps.filter (fun p => sidTruthy p.statement_id)).map payAmtJ).sum := by
  rw [paidMapNumber_eq_accum, accumMap_vsum]

/-- Sum of all values of the skip-non-finite resolver. -/
theorem vsum_paidByStatement_p4 (ps : List PaymentRow) :
    (jvalues (paidByStatement_p4 ps)).sum
      = ((ps.filter (fun p => sidTruthy p.statement_id)).map
          (fun p => amtQ p.amount)).sum := by
  rw [paidByStatement_p4_eq_accum, accumMap_vsum,
    sum_amtQ_filter_fin (fun p => sidTruthy p.statement_id) ps]

/-! ## `Array.prototype.sort`, modelled as a stable insertion sort

The engines' small-array sort path is an insertion sort: a new element is
placed after every prefix element `y` with `cmp(y, x) <= 0`.  `jsInsertBy le`
takes `le y x := cmp(y, x) <= 0` directly. -/

def jsInsertBy {α : Type} (le : α → α → Bool) (x : α) : List α → List α
  | [] => [x]
  | y :: ys => if le y x then y :: jsInsertBy le x ys else x :: y :: ys

def jsSortBy {α : Type} (le : α → α → Bool) (l : List α) : List α :=
  l.foldl (fun acc x => jsInsertBy le x acc) []

theorem jsInsertBy_perm {α : Type} (le : α → α → Bool) (x : α) (l : List α) :
    (jsInsertBy le x l).Perm (x :: l) := by
  induction l with
  | nil => exact List.Perm.refl _
  | cons y ys ih =>
    by_cases h : le y x
    · simp only [jsInsertBy, h, if_true]
      exact (ih.cons y).trans (List.Perm.swap x y ys)
    · simp only [jsInsertBy, h, if_false]
      exact List.Perm.refl _

theorem jsSortBy_perm_aux {α : Type} (le : α → α → Bool) :
    ∀ (l acc : List α),
      (l.foldl (fun acc x => jsInsertBy le x acc) acc).Perm (l ++ acc) := by
  intro l
  induction l with
  | nil => intro acc; exact List.Perm.refl _
  | cons x xs ih =>
    intro acc
    simp only [List.foldl_cons, List.cons_append]
    refine ((ih (jsInsertBy le x acc)).trans ?_)
    refine (List.Perm.append_left xs (jsInsertBy_perm le x acc)).trans ?_
    exact List.perm_middle

/-- The modelled JS sort is a permutation of its input. -/
theorem jsSortBy_perm {α : Type} (le : α → α → Bool) (l : List α) :
    (jsSortBy le l).Perm l := by
  have := jsSortBy_perm_aux le l []
  simpa [jsSortBy] using this

theorem jsSortBy_mem {α : Type} (le : α → α → Bool) (l : List α) (a : α) :
    a ∈ jsSortBy le l ↔ a ∈ l := (jsSortBy_perm le l).mem_iff

theorem pairwise_jsInsertBy {α : Type} (le : α → α → Bool) (R : α → α → Prop)
    (h1 : ∀ a b, le a b = true → R a b) (h2 : ∀ a b, le a b = false → R b a)
    (htrans : ∀ {a b c}, R a b → R b c → R a c) (x : α) (l : List α)
    (hl : l.Pairwise R) : (jsInsertBy le x l).Pairwise R := by
  induction l with
  | nil => simp [jsInsertBy]
  | cons y ys ih =>
    rw [List.pairwise_cons] at hl
    obtain ⟨hy, hys⟩ := hl
    by_cases h : le y x = true
    · simp only [jsInsertBy, h, if_true, List.pairwise_cons]
      refine ⟨?_, ih hys⟩
      intro z hz
      rcases List.mem_cons.mp ((jsInsertBy_perm le x ys).mem_iff.mp hz) with hz2 | hz2
      · exact hz2 ▸ h1 y x h
      · exact hy z hz2
    · have hb : le y x = false := by simpa using h
      simp only [jsInsertBy, hb, Bool.false_eq_true, if_false, List.pairwise_cons]
      refine ⟨?_, hy, hys⟩
      intro z hz
      rcases List.mem_cons.mp hz with hz2 | hz2
      · exact hz2 ▸ h2 y x hb
      · exact htrans (h2 y x hb) (hy z hz2)

/-- The modelled JS sort produces a list pairwise ordered by any relation the
comparator is compatible with. -/
theorem pairwise_jsSortBy {α : Type} (le : α → α → Bool) (R : α → α → Prop)
    (h1 : ∀ a b, le a b = true → R a b) (h2 : ∀ a b, le a b = false → R b a)
    (htrans : ∀ {a b c}, R a b → R b c → R a c) (l : List α) :
    (jsSortBy le l).Pairwise R := by
  suffices h : ∀ acc, acc.Pairwise R →
      (l.foldl (fun acc x => jsInsertBy le x acc) acc).Pairwise R by
    exact h [] (List.Pairwise.nil)
  induction l with
  | nil => intro acc hacc; exact hacc
  | cons x xs ih =>
    intro acc hacc
    simp only [List.foldl_cons]
    exact ih _ (pairwise_jsInsertBy le R h1 h2 htrans x acc hacc)

/-! ## Upcoming-due projections -/

/-- A row of the `upcomingDue` list of `src/unnamed/part_004`
(`{ ...s, pending, days }`). -/
structure DueItem where
  stmt : StatementRow
  pending : JNum
  days : ℤ
deriving DecidableEq, Repr

/-- The loop body of `upcomingDue` in `src/unnamed/part_004` (lines 219-233):
`none` when the row is skipped (`continue`), otherwise the pushed item.
`days = Math.ceil((due - today) / 86400000)` reduces to the day difference
because both instants are local midnights in a fixed-offset timezone. -/
def upcomingEntry_p4 (paid : JsMap ℚ) (todayD in30 : ℤ) (s : StatementRow) :
    Option DueItem :=
  match s.due_date with
  | none => none
  | some ds =>
    if ds.isEmpty then none
    else
      match parseYMD ds with
      | none => none
      | some (dy, dm, dd) =>
        let dueD := jsDateDays dy dm dd
        let amount := s.statement_amount.getD (JNum.fin 0)
        let pending := amount - JNum.fin (lookup0 paid s.id)
        if JNum.jle pending (JNum.fin 0) then none
        else if todayD ≤ dueD ∧ dueD ≤ in30 then
          some ⟨s, pending, dueD - todayD⟩
        else none

/-- `upcomingDue` from `src/unnamed/part_004` (lines 206-237): filter by
present-and-valid due date, positive pending and the inclusive 30-day window
from the explicit `mountedToday`, then sort by
`(a, b) => (a.due_date! > b.due_date! ? 1 : -1)`. -/
def upcomingDue_p4 (sts : List StatementRow) (paid : JsMap ℚ)
    (mountedToday : JStr) : List DueItem :=
  if mountedToday.isEmpty then []
  else
    match parseYMD mountedToday with
    | none => []
    | some (ty, tm, td) =>
      let todayD := jsDateDays ty tm td
      let in30 := jsDateDays ty tm (td + 30)
      jsSortBy
        (fun a b => ! jstrLt (b.stmt.due_date.getD []) (a.stmt.due_date.getD []))
        (sts.filterMap (upcomingEntry_p4 paid todayD in30))

/-- A row of the `upcomingDue` list of the second dashboard of
`src/unnamed/part_003` (lines 1169-1192). -/
structure DueRowV2 where
  id : JStr
  card_id : JStr
  due_date : JStr
  statement_month : JStr
  pending : JNum
  days : ℤ
  currency : JStr
deriving DecidableEq, Repr

/-- Milliseconds per day. -/
def DAYMS : ℤ := 86400000

/-- The loop body of the second `upcomingDue` of `src/unnamed/part_003`
(lines 1173-1192).  `Date.parse(due_date)` yields a UTC instant
(`civil day * DAYMS`), while the window `[startMs, endMs]` comes from local
midnights; note there is no `pending <= 0` skip in this variant. -/
def upcomingEntry_v2 (paid : JsMap JNum) (startMs endMs : ℤ) (s : StatementRow) :
    Option DueRowV2 :=
  match s.due_date with
  | none => none
  | some ds =>
    if ds.isEmpty then none
    else
      match parseYMD ds with
      | none => none
      | some (dy, dm, dd) =>
        let dueT := (civilDays dy dm + (dd - 1)) * DAYMS
        if dueT < startMs ∨ endMs < dueT then none
        else
          let amount := s.statement_amount.getD (JNum.fin 0)
          let pending := JNum.max0 (amount - lookupJ paid s.id)
          let days := jsRound (((dueT - startMs : ℤ) : ℚ) / ((DAYMS : ℤ) : ℚ))
          some ⟨s.id, s.card_id, ds, s.statement_month, pending, days,
            s.currency.getD ['A', 'E', 'D']⟩

/-- The second `upcomingDue` of `src/unnamed/part_003` (lines 1159-1196).  The
source reads the wall clock (`const today = new Date()`) inside the memo; the
clock reading appears here as the explicit arguments `nowY nowM nowD`, and
`tzMs` is the fixed timezone correction (UTC instant of a local midnight
`= civil day * DAYMS + tzMs`; `0` for a UTC host).  Sorted by
`(a, b) => a.days - b.days`. -/
def upcomingDue_v2 (sts : List StatementRow) (paid : JsMap JNum)
    (nowY nowM nowD : ℤ) (tzMs : ℤ) : List DueRowV2 :=
  let startMs := jsDateDays nowY nowM nowD * DAYMS + tzMs
  let endMs := startMs + 30 * DAYMS
  jsSortBy (fun a b => decide (a.days ≤ b.days))
    (sts.filterMap (upcomingEntry_v2 paid startMs endMs))

/-! ## Statement-month normalization (three source variants) -/

/-- `normalizeMonthStart` from `src/unnamed/part_001` (lines 37-45): split on
`"-"`, and if there are at least two truthy parts rebuild `` `${y}-${m}-01` ``,
else return the input unchanged. -/
def normalizeMonthStart (input : JStr) : JStr :=
  let parts := splitOnCh '-' input
  if 2 ≤ parts.length then
    let y := parts.getD 0 []
    let m := parts.getD 1 []
    if !y.isEmpty && !m.isEmpty then y ++ ['-'] ++ m ++ ['-', '0', '1'] else input
  else input

/-- `toFirstOfMonth` from `src/unnamed/part_003` (lines 45-52): split on `"-"`,
coerce the first two parts with `Number`, return `""` unless both are truthy,
else rebuild `` `${y}-${String(m).padStart(2, "0")}-01` ``. -/
def toFirstOfMonth (dateStr : JStr) : JStr :=
  if dateStr.isEmpty then []
  else
    let parts := (splitOnCh '-' dateStr).map jsStrNum
    let y := parts.getD 0 JNum.nan
    let m := parts.getD 1 JNum.nan
    if !(JNum.truthy y) || !(JNum.truthy m) then []
    else jnumToStr y ++ ['-'] ++ padStartZero 2 (jnumToStr m) ++ ['-', '0', '1']

/-- `firstDayOfMonth` from `src/unnamed/part_004` (lines 53-60): slice the year
and month out of a string of length ≥ 10 and rebuild `` `${y}-${m}-01` ``. -/
def firstDayOfMonth (dateStr : JStr) : Option JStr :=
  if dateStr.isEmpty ∨ dateStr.length < 10 then none
  else
    let y := dateStr.take 4
    let m := (dateStr.drop 5).take 2
    if y.isEmpty ∨ m.isEmpty then none
    else some (y ++ ['-'] ++ m ++ ['-', '0', '1'])

/-! ### Digit-string round trips -/

theorem digitVal_lt_ten {c : Char} (h : isDigitCh c = true) : digitVal c < 10 := by
  have h2 : '0' ≤ c ∧ c ≤ '9' := by simpa [isDigitCh] using h
  have h57 : c.toNat ≤ 57 := h2.2
  unfold digitVal
  omega

theorem digit_char_ofNat {c : Char} (h : isDigitCh c = true) :
    Char.ofNat (48 + digitVal c) = c := by
  have h2 : '0' ≤ c ∧ c ≤ '9' := by simpa [isDigitCh] using h
  have h48 : 48 ≤ c.toNat := h2.1
  have heq : 48 + digitVal c = c.toNat := by unfold digitVal; omega
  rw [heq, Char.ofNat_toNat]

theorem digitVal_ne_zero {c : Char} (h : isDigitCh c = true) (h0 : c ≠ '0') :
    digitVal c ≠ 0 := by
  have h2 : '0' ≤ c ∧ c ≤ '9' := by simpa [isDigitCh] using h
  have h48 : 48 ≤ c.toNat := h2.1
  intro hv
  apply h0
  have : c.toNat = 48 := by unfold digitVal at hv; omega
  have := congrArg Char.ofNat this
  rw [Char.ofNat_toNat] at this
  rw [this]

/-- A digit string with no leading zero is reproduced by `String(Number(s))`. -/
theorem natToJStr_digitsToNat (s : JStr) (hne : s ≠ [])
    (hd : s.all isDigitCh = true) (h0 : s.head? ≠ some '0') :
    natToJStr (digitsToNat s) = s := by
  obtain ⟨c, cs, rfl⟩ : ∃ c cs, s = c :: cs := by
    rcases s with _ | ⟨c, cs⟩
    · exact absurd rfl hne
    · exact ⟨c, cs, rfl⟩
  have hc : isDigitCh c = true := by
    have := List.all_eq_true.mp hd c (List.mem_cons_self c cs)
    simpa using this
  have hc0 : c ≠ '0' := by simpa using h0
  have hlt : ∀ l ∈ ((c :: cs).map digitVal).reverse, l < 10 := by
    intro l hl
    rw [List.mem_reverse] at hl
    obtain ⟨ch, hch, rfl⟩ := List.mem_map.mp hl
    exact digitVal_lt_ten (by simpa using List.all_eq_true.mp hd ch hch)
  have hlast : ∀ h : ((c :: cs).map digitVal).reverse ≠ [],
      (((c :: cs).map digitVal).reverse).getLast h ≠ 0 := by
    intro h
    rw [List.getLast_reverse]
    simpa using digitVal_ne_zero hc hc0
  have hdig : Nat.digits 10 (digitsToNat (c :: cs)) = ((c :: cs).map digitVal).reverse :=
    Nat.digits_ofDigits 10 (by norm_num) _ hlt hlast
  have hval0 : digitsToNat (c :: cs) ≠ 0 := by
    intro hz
    have := Nat.digits_zero_of_eq_zero (b := 10) (by norm_num) hz
      (digitVal c) (by simp)
    exact digitVal_ne_zero hc hc0 this
  unfold natToJStr
  rw [if_neg hval0, hdig, List.reverse_reverse, List.map_map]
  rw [List.map_congr_left]
  · exact List.map_id _
  · intro ch hch
    exact digit_char_ofNat (by simpa using List.all_eq_true.mp hd ch hch)

/-- A one-digit value prints as its digit character. -/
theorem natToJStr_single (n : ℕ) (h1 : 1 ≤ n) (h9 : n ≤ 9) :
    natToJStr n = [Char.ofNat (48 + n)] := by
  unfold natToJStr
  rw [if_neg (by omega)]
  rw [Nat.digits_def' (by norm_num : (1:ℕ) < 10) (by omega),
    Nat.mod_eq_of_lt (by omega), Nat.div_eq_of_lt (by omega), Nat.digits_zero]
  rfl

/-! ## Small helper lemmas for the claim theorems -/

/-- The §4.2 clamp policy, stated from the spec's words. -/
def specPendingClamped (billed paid : ℚ) : ℚ := max 0 (billed - paid)

/-- The §4.2 no-clamp policy, stated from the spec's words. -/
def specPendingUnclamped (billed paid : ℚ) : ℚ := billed - paid

theorem JNum.sub_fin (a b : ℚ) : JNum.fin a - JNum.fin b = JNum.fin (a - b) := rfl

theorem amount_getD_fin {a : Option JNum} (h : a ≠ some JNum.nan) :
    a.getD (JNum.fin 0) = JNum.fin (amtQ a) := by
  rcases a with _ | a
  · rfl
  · rcases a with _ | q
    · exact absurd rfl h
    · rfl

theorem sum_fin_map {β : Type} (f : β → ℚ) (l : List β) :
    (l.map (fun b => JNum.fin (f b))).sum = JNum.fin ((l.map f).sum) := by
  induction l with
  | nil => rfl
  | cons b rest ih =>
    simp only [List.map_cons, List.sum_cons, ih]
    rfl

theorem payKey_ne_nil_of_truthy {p : PaymentRow}
    (h : sidTruthy p.statement_id = true) : payKey p ≠ [] := by
  rcases hs : p.statement_id with _ | s
  · simp [sidTruthy, hs] at h
  · simp only [sidTruthy, hs, Bool.not_eq_true'] at h
    simp only [payKey, hs, Option.getD_some]
    intro hnil
    subst hnil
    simp at h

theorem jget_paidMapNumber_nil (ps : List PaymentRow) :
    jget (paidMapNumber ps) [] = none := by
  rw [paidMapNumber_eq_accum]
  apply (accumMap_eq_none _ _ _ _).mpr
  intro b hb
  exact payKey_ne_nil_of_truthy (by simpa using (List.mem_filter.mp hb).2)

theorem jget_paidByStatement_p3_nil (ps : List PaymentRow) :
    jget (paidByStatement_p3 ps) [] = none := by
  rw [paidByStatement_p3_eq_accum]
  apply (accumMap_eq_none _ _ _ _).mpr
  intro b hb
  exact payKey_ne_nil_of_truthy (by simpa using (List.mem_filter.mp hb).2)

theorem jget_paidByStatement_p4_nil (ps : List PaymentRow) :
    jget (paidByStatement_p4 ps) [] = none := by
  rw [paidByStatement_p4_eq_accum]
  apply (accumMap_eq_none _ _ _ _).mpr
  intro b hb
  have h2 := (List.mem_filter.mp hb).2
  rw [Bool.and_eq_true] at h2
  exact payKey_ne_nil_of_truthy h2.1

theorem foldl_skip_mid {β γ : Type} (f : γ → β → γ) (p : β) (h : ∀ c, f c p = c)
    (l1 l2 : List β) (init : γ) :
    (l1 ++ p :: l2).foldl f init = (l1 ++ l2).foldl f init := by
  rw [List.foldl_append, List.foldl_append, List.foldl_cons, h]

theorem sum_map_filter_add {α β : Type} [AddCommMonoid α] (q : β → Bool)
    (val : β → α) (l : List β) :
    ((l.filter q).map val).sum + ((l.filter (fun b => !q b)).map val).sum
      = (l.map val).sum := by
  induction l with
  | nil => simp
  | cons b rest ih =>
    simp only [List.filter_cons, List.map_cons, List.sum_cons]
    rcases hq : q b with _ | _
    · simp only [hq, Bool.not_false, if_pos, Bool.false_eq_true, if_neg,
        not_false_iff, List.map_cons, List.sum_cons]
      rw [← ih, ← add_assoc, add_comm (((List.filter q rest).map val).sum) (val b),
        add_assoc]
    · simp only [hq, Bool.not_true, if_pos, Bool.false_eq_true, if_neg,
        not_false_iff, List.map_cons, List.sum_cons]
      rw [← ih, add_assoc]

theorem sum_filter_key_partition {α β : Type} [AddCommMonoid α]
    (key : β → JStr) (val : β → α) :
    ∀ ids : List JStr, ids.Nodup →
      ∀ rows : List β, (∀ b ∈ rows, key b ∈ ids) →
        (ids.map (fun i => ((rows.filter (fun b => key b = i)).map val).sum)).sum
          = (rows.map val).sum := by
  intro ids
  induction ids with
  | nil =>
    intro _ rows hcov
    have : rows = [] := by
      cases rows with
      | nil => rfl
      | cons b bs => exact absurd (hcov b (List.mem_cons_self b bs)) (List.not_mem_nil _)
    subst this
    rfl
  | cons i ids ih =>
    intro hnd rows hcov
    rw [List.nodup_cons] at hnd
    obtain ⟨hni, hnd⟩ := hnd
    simp only [List.map_cons, List.sum_cons]
    have hsplit :
        ((rows.filter (fun b => key b = i)).map val).sum
            + ((rows.filter (fun b => !(decide (key b = i)))).map val).sum
          = (rows.map val).sum := sum_map_filter_add _ val rows
    set rows' := rows.filter (fun b => !(decide (key b = i))) with hrows'
    have hcov' : ∀ b ∈ rows', key b ∈ ids := by
      intro b hb
      have hmem := List.of_mem_filter hb
      simp only [Bool.not_eq_true', decide_eq_false_iff_not] at hmem
      have := hcov b (List.mem_of_mem_filter hb)
      rcases List.mem_cons.mp this with h | h
      · exact absurd h hmem
      · exact h
    have hterm : ∀ j ∈ ids,
        ((rows.filter (fun b => key b = j)).map val).sum
          = ((rows'.filter (fun b => key b = j)).map val).sum := by
      intro j hj
      have hij : j ≠ i := fun hji => hni (hji ▸ hj)
      have hfil : rows'.filter (fun b => key b = j)
          = rows.filter (fun b => key b = j) := by
        rw [hrows', List.filter_filter]
        apply List.filter_congr
        intro b _
        by_cases hkb : key b = j
        · simp [hkb, hij]
        · simp [hkb]
      rw [hfil]
    rw [List.map_congr_left hterm, ih hnd rows' hcov', ← hsplit]

theorem accumMap_perm_jget {α β : Type} [AddCommMonoid α] (key : β → JStr)
    (val : β → α) {l1 l2 : List β} (h : l1.Perm l2) (k : JStr) :
    jget (accumMap key val l1) k = jget (accumMap key val l2) k := by
  rw [accumMap_jget, accumMap_jget]
  have hcond : (∀ b ∈ l1, key b ≠ k) ↔ (∀ b ∈ l2, key b ≠ k) := by
    constructor
    · intro hh b hb; exact hh b (h.mem_iff.mpr hb)
    · intro hh b hb; exact hh b (h.mem_iff.mp hb)
  by_cases hc : ∀ b ∈ l1, key b ≠ k
  · rw [if_pos hc, if_pos (hcond.mp hc)]
  · rw [if_neg hc, if_neg (fun hx => hc (hcond.mpr hx))]
    congr 1
    exact List.Perm.sum_eq ((h.filter _).map val)

/-! ## Claim theorems -/

/-- C1, counterexample: the claim asserts one pending policy P (clamped or
unclamped) such that the per-statement pending of `StatementsPage`
(`src/unnamed/part_001` lines 321-323) equals P and the per-card rollup of the
`part_003` dashboard (lines 201-210) sums P.  At billed 100 / paid 200 the
per-statement value is −100 (forcing the unclamped P) while the per-card
rollup is 0 (forcing the clamped P), so no single policy fits both. -/
theorem C1_counterexample :
    ¬ ∃ clamp : Bool,
      (stmtPending_p1
          ⟨['s','1'], ['c','1'], [], none, none, some (JNum.fin 100), none⟩
          [(['s','1'], JNum.fin 200)]
        = JNum.fin ((if clamp then specPendingClamped else specPendingUnclamped) 100 200))
      ∧ (lookup0
          (pendingByCard_p3
            [⟨['s','1'], ['c','1'], [], none, none, some (JNum.fin 100), none⟩]
            [(['s','1'], (200 : ℚ))])
          ['c','1']
        = (if clamp then specPendingClamped else specPendingUnclamped) 100 200) := by
  rintro ⟨clamp, h1, h2⟩
  have e1 : stmtPending_p1
      ⟨['s','1'], ['c','1'], [], none, none, some (JNum.fin 100), none⟩
      [(['s','1'], JNum.fin 200)] = JNum.fin (100 - 200) := by
    simp [stmtPending_p1, lookupJ, jget, JNum.sub_fin]
  have e2 : lookup0
      (pendingByCard_p3
        [⟨['s','1'], ['c','1'], [], none, none, some (JNum.fin 100), none⟩]
        [(['s','1'], (200 : ℚ))])
      ['c','1'] = max 0 (100 - 200) := by
    simp [pendingByCard_p3, lookup0, jget, jset, safeNum]
  rw [e1] at h1
  rw [e2] at h2
  cases clamp
  · simp only [Bool.false_eq_true, if_false, specPendingUnclamped] at h2
    norm_num at h2
  · simp only [if_true, specPendingClamped, JNum.fin.injEq] at h1
    norm_num at h1

/-- C1, amended: each dashboard applies one policy consistently at both of its
own aggregation levels — the `part_003` dashboard uses the clamped policy for
its per-statement display and its per-card rollup, the `part_004` dashboard
uses the unclamped policy for both, and `part_001`'s per-statement pending is
unclamped — but no single policy spans the `part_001` per-statement value and
the `part_003` per-card rollup (see the counterexample). -/
theorem C1_amended :
    (∀ (sts : List StatementRow) (paid : JsMap ℚ) (c : JStr),
      lookup0 (pendingByCard_p3 sts paid) c
        = ((sts.filter (fun s => s.card_id = c)).map
            (fun s => specPendingClamped (safeNum s.statement_amount)
              (lookup0 paid s.id))).sum)
    ∧ (∀ (s : StatementRow) (paid : JsMap ℚ),
        stmtPendingShown_p3 s paid
          = specPendingClamped (safeNum s.statement_amount) (lookup0 paid s.id))
    ∧ (∀ (sts : List StatementRow) (paid : JsMap ℚ) (c : JStr),
        (∀ s ∈ sts, s.statement_amount ≠ some JNum.nan) →
        lookupJ (pendingByCard_p4 sts paid) c
          = JNum.fin (((sts.filter (fun s => s.card_id = c)).map
              (fun s => specPendingUnclamped (amtQ s.statement_amount)
                (lookup0 paid s.id))).sum))
    ∧ (∀ (s : StatementRow) (paid : JsMap ℚ),
        s.statement_amount ≠ some JNum.nan →
        stmtPendingShown_p4 s paid
          = JNum.fin (specPendingUnclamped (amtQ s.statement_amount)
              (lookup0 paid s.id)))
    ∧ (∀ (s : StatementRow) (pm : JsMap JNum) (b p : ℚ),
        s.statement_amount = some (JNum.fin b) → lookupJ pm s.id = JNum.fin p →
        stmtPending_p1 s pm = JNum.fin (specPendingUnclamped b p)) := by
  refine ⟨?_, ?_, ?_, ?_, ?_⟩
  · intro sts paid c
    show (jget (pendingByCard_p3 sts paid) c).getD 0 = _
    rw [pendingByCard_p3_eq_accum, accumMap_getD]
    rfl
  · intro s paid
    rfl
  · intro sts paid c hfin
    rw [lookupJ_eq_getD_zero, pendingByCard_p4_eq_accum, accumMap_getD]
    have hmap : ∀ s ∈ sts.filter (fun s => s.card_id = c),
        s.statement_amount.getD (JNum.fin 0) - JNum.fin (lookup0 paid s.id)
          = JNum.fin (specPendingUnclamped (amtQ s.statement_amount)
              (lookup0 paid s.id)) := by
      intro s hs
      rw [amount_getD_fin (hfin s (List.mem_of_mem_filter hs)), JNum.sub_fin]
      rfl
    rw [List.map_congr_left hmap, sum_fin_map]
  · intro s paid hfin
    unfold stmtPendingShown_p4
    rw [amount_getD_fin hfin, JNum.sub_fin]
    rfl
  · intro s pm b p hb hp
    unfold stmtPending_p1
    rw [hb, hp]
    rfl

/-- C1, witness for the amended theorem: the spec §8 example — statement S1
billed 1200 with 700 paid — has unclamped per-statement pending 500 in
`part_001`'s view. -/
theorem C1_amended_witness :
    stmtPending_p1
        ⟨['s','1'], ['c','1'], [], none, none, some (JNum.fin 1200), none⟩
        [(['s','1'], JNum.fin 700)]
      = JNum.fin (specPendingUnclamped 1200 700) :=
  C1_amended.2.2.2.2
    ⟨['s','1'], ['c','1'], [], none, none, some (JNum.fin 1200), none⟩
    [(['s','1'], JNum.fin 700)] 1200 700 rfl rfl

/-- C10: a payment whose `statement_id` is the empty string (not only
null/absent) is treated as unlinked by every resolver: the output map never
contains `""` as a key, and removing such a payment leaves each resolver's
output map unchanged. -/
theorem C10_empty_statement_id :
    (∀ ps : List PaymentRow,
      jget (paidMapNumber ps) [] = none ∧ jget (paidByStatement_p3 ps) [] = none ∧
        jget (paidByStatement_p4 ps) [] = none)
    ∧ (∀ (ps1 ps2 : List PaymentRow) (p : PaymentRow), p.statement_id = some [] →
        paidMapNumber (ps1 ++ p :: ps2) = paidMapNumber (ps1 ++ ps2)
        ∧ paidByStatement_p3 (ps1 ++ p :: ps2) = paidByStatement_p3 (ps1 ++ ps2)
        ∧ paidByStatement_p4 (ps1 ++ p :: ps2) = paidByStatement_p4 (ps1 ++ ps2)) := by
  constructor
  · intro ps
    exact ⟨jget_paidMapNumber_nil ps, jget_paidByStatement_p3_nil ps,
      jget_paidByStatement_p4_nil ps⟩
  · intro ps1 ps2 p hp
    refine ⟨?_, ?_, ?_⟩
    · unfold paidMapNumber
      apply foldl_skip_mid
      intro c
      simp [hp]
    · unfold paidByStatement_p3
      apply foldl_skip_mid
      intro c
      simp [hp]
    · unfold paidByStatement_p4
      apply foldl_skip_mid
      intro c
      simp [hp]

/-- C10, witness: appending a payment with `statement_id = ""` to a concrete
collection leaves the resolver's map unchanged. -/
theorem C10_witness :
    paidMapNumber
        [⟨['p','1'], ['C','A','R','D'], none, some ['s','1'], [], some (JNum.fin 5), none, none⟩,
         ⟨['p','3'], ['C','A','R','D'], none, some [], [], some (JNum.fin 5), none, none⟩]
      = paidMapNumber
        [⟨['p','1'], ['C','A','R','D'], none, some ['s','1'], [], some (JNum.fin 5), none, none⟩] :=
  (C10_empty_statement_id.2
    [⟨['p','1'], ['C','A','R','D'], none, some ['s','1'], [], some (JNum.fin 5), none, none⟩]
    []
    ⟨['p','3'], ['C','A','R','D'], none, some [], [], some (JNum.fin 5), none, none⟩
    rfl).1

/-- C2, counterexample: a payment whose `statement_id` is the empty string has
a non-null `statement_id`, yet contributes nothing to the resolver's map — so
the sum of the output map's values (0) differs from the sum of amounts of
payments with a non-null `statement_id` (5), refuting the claim as stated. -/
theorem C2_counterexample :
    ¬ ((jvalues (paidByStatement_p4
          [⟨['p','3'], ['C','A','R','D'], none, some [], [], some (JNum.fin 5), none, none⟩])).sum
        = ((([⟨['p','3'], ['C','A','R','D'], none, some [], [], some (JNum.fin 5), none, none⟩]
                : List PaymentRow).filter
              (fun p => p.statement_id ≠ none)).map (fun p => amtQ p.amount)).sum) := by
  simp [paidByStatement_p4, jvalues, amtQ]

/-- C2, amended: with "linked" meaning a truthy (non-null and non-empty)
`statement_id`, each resolver maps every non-empty statement identifier to the
sum of coerced amounts of exactly the payments linked to it, and the sum of
the output map's values equals the sum of coerced amounts of the linked
payments. -/
theorem C2_amended :
    (∀ (ps : List PaymentRow) (k : JStr), k ≠ [] →
      lookup0 (paidByStatement_p4 ps) k
          = ((ps.filter (fun p => p.statement_id = some k)).map
              (fun p => amtQ p.amount)).sum
        ∧ lookupJ (paidMapNumber ps) k
          = ((ps.filter (fun p => p.statement_id = some k)).map payAmtJ).sum)
    ∧ (∀ ps : List PaymentRow,
        (jvalues (paidByStatement_p4 ps)).sum
          = ((ps.filter (fun p => sidTruthy p.statement_id)).map
              (fun p => amtQ p.amount)).sum)
    ∧ (∀ ps : List PaymentRow,
        (jvalues (paidMapNumber ps)).sum
          = ((ps.filter (fun p => sidTruthy p.statement_id)).map payAmtJ).sum) :=
  ⟨fun ps k hk => ⟨lookup0_paidByStatement_p4 ps k hk, lookupJ_paidMapNumber ps k hk⟩,
    vsum_paidByStatement_p4, vsum_paidMapNumber⟩

/-- C2, witness for the amended theorem at a single linked payment. -/
theorem C2_amended_witness :
    lookup0 (paidByStatement_p4
        [⟨['p','1'], ['C','A','R','D'], none, some ['s','1'], [], some (JNum.fin 5), none, none⟩])
        ['s','1']
      = ((([⟨['p','1'], ['C','A','R','D'], none, some ['s','1'], [], some (JNum.fin 5), none, none⟩]
              : List PaymentRow).filter
            (fun p => p.statement_id = some ['s','1'])).map (fun p => amtQ p.amount)).sum :=
  (C2_amended.1
    [⟨['p','1'], ['C','A','R','D'], none, some ['s','1'], [], some (JNum.fin 5), none, none⟩]
    ['s','1'] (by decide)).1

/-- C3, counterexample: in `part_001`'s `paidMap` (cited by the claim) a
non-finite amount is added with no finiteness guard, so it does not contribute
0: adding such a row changes the already-aggregated total of the payment
sharing its statement from 5 to non-finite. -/
theorem C3_counterexample :
    lookupJ (paidMapNumber
        [⟨['p','1'], ['C','A','R','D'], none, some ['s','1'], [], some (JNum.fin 5), none, none⟩])
        ['s','1'] = JNum.fin 5
    ∧ lookupJ (paidMapNumber
        [⟨['p','1'], ['C','A','R','D'], none, some ['s','1'], [], some (JNum.fin 5), none, none⟩,
         ⟨['p','2'], ['C','A','R','D'], none, some ['s','1'], [], some JNum.nan, none, none⟩])
        ['s','1'] = JNum.nan := by
  constructor
  · simp [paidMapNumber, lookupJ, jget, jset, payAmtJ, JNum.add_def, JNum.add]
  · simp [paidMapNumber, lookupJ, jget, jset, payAmtJ, JNum.add_def, JNum.add]

/-- C3, amended: in the `safeNum`-coercing resolver (`part_003`, first
dashboard) and the skip-non-finite resolver (`part_004`), a payment whose
amount is missing or non-finite contributes exactly 0: inserting such a row
anywhere leaves every statement's paid total unchanged.  In `part_001`'s
`paidMap` (and the second `part_003` dashboard) a missing amount contributes 0
but a non-finite amount poisons that one statement's total (see the
counterexample). -/
theorem C3_amended :
    ∀ (ps1 ps2 : List PaymentRow) (p : PaymentRow),
      p.amount = none ∨ p.amount = some JNum.nan →
      (∀ k, lookup0 (paidByStatement_p3 (ps1 ++ p :: ps2)) k
          = lookup0 (paidByStatement_p3 (ps1 ++ ps2)) k)
      ∧ (∀ k, lookup0 (paidByStatement_p4 (ps1 ++ p :: ps2)) k
          = lookup0 (paidByStatement_p4 (ps1 ++ ps2)) k) := by
  intro ps1 ps2 p hp
  have hsafe : safeNum p.amount = 0 := by
    rcases hp with h | h <;> simp [h, safeNum]
  have hamt : amtQ p.amount = 0 := by
    rcases hp with h | h <;> simp [h, amtQ]
  constructor
  · intro k
    by_cases hk : k = []
    · subst hk
      show (jget _ []).getD 0 = (jget _ []).getD 0
      rw [jget_paidByStatement_p3_nil, jget_paidByStatement_p3_nil]
    · rw [lookup0_paidByStatement_p3 _ k hk, lookup0_paidByStatement_p3 _ k hk]
      simp only [List.filter_append, List.filter_cons, List.map_append,
        List.sum_append]
      by_cases hmatch : p.statement_id = some k
      · simp [hmatch, hsafe]
      · simp [hmatch]
  · intro k
    by_cases hk : k = []
    · subst hk
      show (jget _ []).getD 0 = (jget _ []).getD 0
      rw [jget_paidByStatement_p4_nil, jget_paidByStatement_p4_nil]
    · rw [lookup0_paidByStatement_p4 _ k hk, lookup0_paidByStatement_p4 _ k hk]
      simp only [List.filter_append, List.filter_cons, List.map_append,
        List.sum_append]
      by_cases hmatch : p.statement_id = some k
      · simp [hmatch, hamt]
      · simp [hmatch]

/-- C3, witness: inserting a missing-amount payment leaves a concrete
statement's paid total unchanged in the `safeNum` resolver. -/
theorem C3_amended_witness :
    lookup0 (paidByStatement_p3
        [⟨['p','1'], ['C','A','R','D'], none, some ['s','1'], [], some (JNum.fin 5), none, none⟩,
         ⟨['p','4'], ['C','A','R','D'], none, some ['s','1'], [], none, none, none⟩])
        ['s','1']
      = lookup0 (paidByStatement_p3
        [⟨['p','1'], ['C','A','R','D'], none, some ['s','1'], [], some (JNum.fin 5), none, none⟩])
        ['s','1'] :=
  ((C3_amended
    [⟨['p','1'], ['C','A','R','D'], none, some ['s','1'], [], some (JNum.fin 5), none, none⟩]
    []
    ⟨['p','4'], ['C','A','R','D'], none, some ['s','1'], [], none, none, none⟩
    (Or.inl rfl)).1) ['s','1']

/-- C4: all three paid-amount resolvers are order-independent — permuting the
payment collection leaves the resulting statement-id-to-sum map extensionally
unchanged (every lookup, present or absent, agrees). -/
theorem C4_order_independence :
    ∀ (l1 l2 : List PaymentRow), l1.Perm l2 →
      (∀ k, jget (paidMapNumber l1) k = jget (paidMapNumber l2) k)
      ∧ (∀ k, jget (paidByStatement_p3 l1) k = jget (paidByStatement_p3 l2) k)
      ∧ (∀ k, jget (paidByStatement_p4 l1) k = jget (paidByStatement_p4 l2) k) := by
  intro l1 l2 h
  refine ⟨fun k => ?_, fun k => ?_, fun k => ?_⟩
  · rw [paidMapNumber_eq_accum, paidMapNumber_eq_accum]
    exact accumMap_perm_jget _ _ (h.filter _) k
  · rw [paidByStatement_p3_eq_accum, paidByStatement_p3_eq_accum]
    exact accumMap_perm_jget _ _ (h.filter _) k
  · rw [paidByStatement_p4_eq_accum, paidByStatement_p4_eq_accum]
    exact accumMap_perm_jget _ _ (h.filter _) k

/-- C4, witness: swapping two concrete payments leaves their statement's
total unchanged. -/
theorem C4_witness :
    jget (paidMapNumber
        [⟨['p','1'], ['C','A','R','D'], none, some ['s','1'], [], some (JNum.fin 5), none, none⟩,
         ⟨['p','2'], ['C','A','R','D'], none, some ['s','1'], [], some (JNum.fin 7), none, none⟩])
        ['s','1']
      = jget (paidMapNumber
        [⟨['p','2'], ['C','A','R','D'], none, some ['s','1'], [], some (JNum.fin 7), none, none⟩,
         ⟨['p','1'], ['C','A','R','D'], none, some ['s','1'], [], some (JNum.fin 5), none, none⟩])
        ['s','1'] :=
  (C4_order_independence _ _
    (List.Perm.swap
      ⟨['p','2'], ['C','A','R','D'], none, some ['s','1'], [], some (JNum.fin 7), none, none⟩
      ⟨['p','1'], ['C','A','R','D'], none, some ['s','1'], [], some (JNum.fin 5), none, none⟩
      [])).1 ['s','1']

/-! ## Per-card rollup lookups and totals -/

theorem foldl_add_map {α β : Type} [AddCommMonoid α] (f : β → α) (l : List β) :
    l.foldl (fun a b => a + f b) 0 = (l.map f).sum := by
  rw [List.sum_eq_foldl, List.foldl_map]

theorem lookup0_pendingByCard_p3 (sts : List StatementRow) (paid : JsMap ℚ)
    (k : JStr) :
    lookup0 (pendingByCard_p3 sts paid) k
      = ((sts.filter (fun s => s.card_id = k)).map
          (fun s => max 0 (safeNum s.statement_amount - lookup0 paid s.id))).sum := by
  show (jget (pendingByCard_p3 sts paid) k).getD 0 = _
  rw [pendingByCard_p3_eq_accum, accumMap_getD]

theorem lookupJ_pendingByCard_v2 (sts : List StatementRow) (paid : JsMap JNum)
    (k : JStr) :
    lookupJ (pendingByCard_v2 sts paid) k
      = ((sts.filter (fun s => s.card_id = k)).map
          (fun s => JNum.max0 (s.statement_amount.getD (JNum.fin 0)
            - lookupJ paid s.id))).sum := by
  rw [lookupJ_eq_getD_zero, pendingByCard_v2_eq_accum, accumMap_getD]

theorem lookupJ_pendingByCard_p4 (sts : List StatementRow) (paid : JsMap ℚ)
    (k : JStr) :
    lookupJ (pendingByCard_p4 sts paid) k
      = ((sts.filter (fun s => s.card_id = k)).map
          (fun s => s.statement_amount.getD (JNum.fin 0)
            - JNum.fin (lookup0 paid s.id))).sum := by
  rw [lookupJ_eq_getD_zero, pendingByCard_p4_eq_accum, accumMap_getD]

theorem sum_lookups_over_cards {α : Type} [AddCommMonoid α]
    (cards : List CardRow) (sts : List StatementRow) (val : StatementRow → α)
    (g : JStr → α)
    (hg : ∀ k, g k = ((sts.filter (fun s => s.card_id = k)).map val).sum)
    (hnd : (cards.map (fun c => c.id)).Nodup)
    (hcov : ∀ s ∈ sts, s.card_id ∈ cards.map (fun c => c.id)) :
    (cards.map (fun c => g c.id)).sum = (sts.map val).sum := by
  have h1 : (cards.map (fun c => g c.id)).sum
      = ((cards.map (fun c => c.id)).map
          (fun i => ((sts.filter (fun s => s.card_id = i)).map val).sum)).sum := by
    rw [List.map_map]
    congr 1
    apply List.map_congr_left
    intro c _
    exact hg c.id
  rw [h1]
  exact sum_filter_key_partition (fun s => s.card_id) val _ hnd sts hcov

/-- C7, counterexample: with one statement (billed 100, no payments) whose
card has been deleted from the snapshot, the `part_003` dashboard's
`totalPending` sums over the cards collection and misses the orphan statement
(total 0), while the sum of per-statement pending values is 100 — so the
claimed agreement of aggregation levels fails on such snapshots. -/
theorem C7_counterexample :
    ¬ (totalPending_p3 []
          [⟨['s','1'], ['c','1'], [], none, none, some (JNum.fin 100), none⟩] []
        = (([⟨['s','1'], ['c','1'], [], none, none, some (JNum.fin 100), none⟩]
              : List StatementRow).map
            (fun s => specPendingClamped (safeNum s.statement_amount)
              (lookup0 ([] : JsMap ℚ) s.id))).sum) := by
  simp [totalPending_p3, specPendingClamped, safeNum, lookup0, jget]

/-- C7, amended: when every statement's `card_id` occurs among the (distinct)
card ids of the snapshot, the three aggregation levels agree in each dashboard
under its own policy: `part_003`'s `totalPending` (a sum of per-card rollups by
definition) equals the sum of clamped per-statement pendings; the second
dashboard's `totalPending` (a sum over the rollup map's values) equals the sum
of clamped per-statement pendings unconditionally, and equals the sum over the
cards of rollup lookups under the hypotheses; `part_004`'s `totalPending` (a
direct sum over statements, unclamped) equals the sum over the cards of its
rollup lookups under the hypotheses.  Snapshots with orphan statements break
the card-level agreement (see the counterexample). -/
theorem C7_amended :
    ∀ (cards : List CardRow) (sts : List StatementRow) (paidQ : JsMap ℚ)
      (paidJ : JsMap JNum),
      (cards.map (fun c => c.id)).Nodup →
      (∀ s ∈ sts, s.card_id ∈ cards.map (fun c => c.id)) →
      (totalPending_p3 cards sts paidQ
          = (sts.map (fun s => specPendingClamped (safeNum s.statement_amount)
              (lookup0 paidQ s.id))).sum)
      ∧ (totalPending_v2 sts paidJ
          = (sts.map (fun s => JNum.max0 (s.statement_amount.getD (JNum.fin 0)
              - lookupJ paidJ s.id))).sum
        ∧ totalPending_v2 sts paidJ
          = (cards.map (fun c => lookupJ (pendingByCard_v2 sts paidJ) c.id)).sum)
      ∧ (totalPending_p4 sts paidQ
          = (sts.map (fun s => s.statement_amount.getD (JNum.fin 0)
              - JNum.fin (lookup0 paidQ s.id))).sum
        ∧ totalPending_p4 sts paidQ
          = (cards.map (fun c => lookupJ (pendingByCard_p4 sts paidQ) c.id)).sum) := by
  intro cards sts paidQ paidJ hnd hcov
  have hv2sum : totalPending_v2 sts paidJ
      = (sts.map (fun s => JNum.max0 (s.statement_amount.getD (JNum.fin 0)
          - lookupJ paidJ s.id))).sum := by
    show (jvalues (pendingByCard_v2 sts paidJ)).foldl (· + ·) 0 = _
    rw [← List.sum_eq_foldl, pendingByCard_v2_eq_accum, accumMap_vsum]
  have hp4sum : totalPending_p4 sts paidQ
      = (sts.map (fun s => s.statement_amount.getD (JNum.fin 0)
          - JNum.fin (lookup0 paidQ s.id))).sum := by
    show sts.foldl (fun sum s => sum + (s.statement_amount.getD (JNum.fin 0)
        - JNum.fin (lookup0 paidQ s.id))) 0 = _
    rw [foldl_add_map]
  refine ⟨?_, ⟨hv2sum, ?_⟩, hp4sum, ?_⟩
  · show cards.foldl (fun a c => a + lookup0 (pendingByCard_p3 sts paidQ) c.id) 0 = _
    rw [foldl_add_map]
    exact sum_lookups_over_cards cards sts _ _
      (lookup0_pendingByCard_p3 sts paidQ) hnd hcov
  · rw [hv2sum]
    exact (sum_lookups_over_cards cards sts _ _
      (lookupJ_pendingByCard_v2 sts paidJ) hnd hcov).symm
  · rw [hp4sum]
    exact (sum_lookups_over_cards cards sts _ _
      (lookupJ_pendingByCard_p4 sts paidQ) hnd hcov).symm

/-- C7, witness: the spec §8 scenario (one card, one statement billed 100, no
payments) — `part_003`'s `totalPending` equals the sum of per-statement
clamped pendings. -/
theorem C7_amended_witness :
    totalPending_p3
        [⟨['c','1'], ['C'], none, some (JNum.fin 5000), none, none⟩]
        [⟨['s','1'], ['c','1'], [], none, none, some (JNum.fin 100), none⟩] []
      = (([⟨['s','1'], ['c','1'], [], none, none, some (JNum.fin 100), none⟩]
            : List StatementRow).map
          (fun s => specPendingClamped (safeNum s.statement_amount)
            (lookup0 ([] : JsMap ℚ) s.id))).sum :=
  (C7_amended
    [⟨['c','1'], ['C'], none, some (JNum.fin 5000), none, none⟩]
    [⟨['s','1'], ['c','1'], [], none, none, some (JNum.fin 100), none⟩]
    [] [] (by decide) (by decide)).1

/-! ## Digit-string facts for the month-normalization claim -/

theorem jsStrNum_digits (s : JStr) (hne : s ≠ []) (hd : s.all isDigitCh = true) :
    jsStrNum s = JNum.fin ((digitsToNat s : ℕ) : ℚ) := by
  unfold jsStrNum
  rw [if_neg (by simpa using hne), if_pos hd]

theorem digitsToNat_ne_zero_of_head {c : Char} {cs : JStr}
    (hall : (c :: cs).all isDigitCh = true) (h0 : c ≠ '0') :
    digitsToNat (c :: cs) ≠ 0 := by
  intro hz
  have hmem : digitVal c ∈ ((c :: cs).map digitVal).reverse := by simp
  have := Nat.digits_zero_of_eq_zero (b := 10) (by norm_num) hz (digitVal c) hmem
  exact digitVal_ne_zero
    (by simpa using List.all_eq_true.mp hall c (List.mem_cons_self _ _)) h0 this

theorem digitsToNat_two (m1 m2 : Char) :
    digitsToNat [m1, m2] = digitVal m2 + 10 * digitVal m1 := by
  simp [digitsToNat, Nat.ofDigits_cons, Nat.ofDigits_nil]

theorem digitsToNat_two_ne_zero {m1 m2 : Char} (h1 : isDigitCh m1 = true)
    (h2 : isDigitCh m2 = true) (hne : ¬(m1 = '0' ∧ m2 = '0')) :
    digitsToNat [m1, m2] ≠ 0 := by
  rw [digitsToNat_two]
  intro hz
  have hv1 : digitVal m1 = 0 := by omega
  have hv2 : digitVal m2 = 0 := by omega
  apply hne
  constructor
  · by_contra hc; exact digitVal_ne_zero h1 hc hv1
  · by_contra hc; exact digitVal_ne_zero h2 hc hv2

theorem jnumToStr_natCast (n : ℕ) :
    jnumToStr (JNum.fin (n : ℚ)) = natToJStr n := by
  have hden : ((n : ℚ)).den = 1 := Rat.den_natCast n
  have hnum : ((n : ℚ)).num = n := Rat.num_natCast n
  simp only [jnumToStr]
  rw [if_pos ⟨hden, hnum ▸ Int.natCast_nonneg n⟩, hnum, Int.toNat_natCast]

theorem padStart_natToJStr_two {m1 m2 : Char} (h1 : isDigitCh m1 = true)
    (h2 : isDigitCh m2 = true) (hne : ¬(m1 = '0' ∧ m2 = '0')) :
    padStartZero 2 (natToJStr (digitsToNat [m1, m2])) = [m1, m2] := by
  by_cases hm1 : m1 = '0'
  · subst hm1
    have hm2 : m2 ≠ '0' := fun h => hne ⟨rfl, h⟩
    have hval : digitsToNat ['0', m2] = digitVal m2 := by
      rw [digitsToNat_two]
      have : digitVal '0' = 0 := rfl
      rw [this]
      ring
    rw [hval, natToJStr_single (digitVal m2) ?_ ?_]
    · rw [digit_char_ofNat h2]
      rfl
    · have := digitVal_ne_zero h2 hm2
      omega
    · have := digitVal_lt_ten h2
      omega
  · have hrt := natToJStr_digitsToNat [m1, m2] (by simp)
      (by simp [List.all_cons, h1, h2]) (by simpa using hm1)
    rw [hrt]
    rfl

/-- C9: on a well-formed `YYYY-MM-DD` date string (four digit-characters of
year with no leading zero, two digit-characters of month other than `"00"`,
two characters of day), all three statement-month normalizers — `part_001`'s
`normalizeMonthStart`, `part_003`'s `toFirstOfMonth` and `part_004`'s
`firstDayOfMonth` — truncate to the year-month and set the day to `01`,
producing `YYYY-MM-01`. -/
theorem C9_month_normalization :
    ∀ y m d : JStr,
      y.length = 4 → y.all isDigitCh = true → y.head? ≠ some '0' →
      m.length = 2 → m.all isDigitCh = true → m ≠ ['0', '0'] →
      d.length = 2 →
      normalizeMonthStart (y ++ ['-'] ++ m ++ ['-'] ++ d)
          = y ++ ['-'] ++ m ++ ['-', '0', '1']
      ∧ toFirstOfMonth (y ++ ['-'] ++ m ++ ['-'] ++ d)
          = y ++ ['-'] ++ m ++ ['-', '0', '1']
      ∧ firstDayOfMonth (y ++ ['-'] ++ m ++ ['-'] ++ d)
          = some (y ++ ['-'] ++ m ++ ['-', '0', '1']) := by
  intro y m d hy1 hy2 hy3 hm1 hm2 hm3 hd1
  have hs : y ++ ['-'] ++ m ++ ['-'] ++ d = y ++ '-' :: (m ++ '-' :: d) := by
    simp
  have hyne : y ≠ [] := by intro hh; subst hh; simp at hy1
  have hmne : m ≠ [] := by intro hh; subst hh; simp at hm1
  have hdashy : '-' ∉ y := by
    intro hmem
    exact absurd (List.all_eq_true.mp hy2 '-' hmem) (by decide)
  have hdashm : '-' ∉ m := by
    intro hmem
    exact absurd (List.all_eq_true.mp hm2 '-' hmem) (by decide)
  have hsplit : splitOnCh '-' (y ++ '-' :: (m ++ '-' :: d))
      = y :: m :: splitOnCh '-' d := by
    rw [splitOnCh_append '-' y _ hdashy, splitOnCh_append '-' m _ hdashm]
  refine ⟨?_, ?_, ?_⟩
  · rw [hs]
    unfold normalizeMonthStart
    simp only [hsplit, List.length_cons, List.getD_cons_zero, List.getD_cons_succ]
    rw [if_pos (by omega)]
    have hye : y.isEmpty = false := by simpa using hyne
    have hme : m.isEmpty = false := by simpa using hmne
    rw [if_pos (by simp [hye, hme])]
  · rw [hs]
    unfold toFirstOfMonth
    have hine : (y ++ '-' :: (m ++ '-' :: d)).isEmpty = false := by
      cases y <;> rfl
    simp only [hine, Bool.false_eq_true, if_false, hsplit, List.map_cons,
      List.getD_cons_zero, List.getD_cons_succ]
    rw [jsStrNum_digits y hyne hy2, jsStrNum_digits m hmne hm2]
    obtain ⟨yc, ytl, hyc⟩ : ∃ c t, y = c :: t := by
      rcases y with _ | ⟨c, t⟩
      · exact absurd rfl hyne
      · exact ⟨c, t, rfl⟩
    obtain ⟨mc1, mc2, hmc⟩ : ∃ a b, m = [a, b] := List.length_eq_two.mp hm1
    have hty : JNum.truthy (JNum.fin ((digitsToNat y : ℕ) : ℚ)) = true := by
      rw [hyc]
      simp only [JNum.truthy, decide_eq_true_eq]
      exact Nat.cast_ne_zero.mpr
        (digitsToNat_ne_zero_of_head (hyc ▸ hy2) (by
          rw [hyc] at hy3; simpa using hy3))
    have hmdig1 : isDigitCh mc1 = true := by
      have := List.all_eq_true.mp hm2 mc1 (by rw [hmc]; simp)
      simpa using this
    have hmdig2 : isDigitCh mc2 = true := by
      have := List.all_eq_true.mp hm2 mc2 (by rw [hmc]; simp)
      simpa using this
    have hmpair : ¬(mc1 = '0' ∧ mc2 = '0') := by
      rintro ⟨ha, hb⟩
      apply hm3
      rw [hmc, ha, hb]
    have htm : JNum.truthy (JNum.fin ((digitsToNat m : ℕ) : ℚ)) = true := by
      rw [hmc]
      simp only [JNum.truthy, decide_eq_true_eq]
      exact Nat.cast_ne_zero.mpr (digitsToNat_two_ne_zero hmdig1 hmdig2 hmpair)
    rw [if_neg (by simp [hty, htm])]
    rw [jnumToStr_natCast, jnumToStr_natCast,
      natToJStr_digitsToNat y hyne hy2 hy3]
    rw [hmc, padStart_natToJStr_two hmdig1 hmdig2 hmpair]
  · unfold firstDayOfMonth
    have hlen : (y ++ ['-'] ++ m ++ ['-'] ++ d).length = 10 := by
      simp [hy1, hm1, hd1]
    have hne2 : y ++ ['-'] ++ m ++ ['-'] ++ d ≠ [] := by
      intro hh
      rw [hh] at hlen
      simp at hlen
    rw [if_neg (by
      rw [hlen]
      simp [List.isEmpty_iff, hne2])]
    have htake : (y ++ ['-'] ++ m ++ ['-'] ++ d).take 4 = y := by
      rw [hs]
      exact List.take_left' hy1
    have hdrop : (y ++ ['-'] ++ m ++ ['-'] ++ d).drop 5 = m ++ '-' :: d := by
      have hsh : y ++ ['-'] ++ m ++ ['-'] ++ d = (y ++ ['-']) ++ (m ++ '-' :: d) := by
        simp
      rw [hsh]
      exact List.drop_left' (by simp [hy1])
    simp only [htake, hdrop, List.take_left' hm1]
    have hye : y.isEmpty = false := by simpa using hyne
    have hme : m.isEmpty = false := by simpa using hmne
    rw [if_neg (by simp [hye, hme])]

/-- C9, witness: `"2025-12-29"` normalizes to `"2025-12-01"` in `part_003`'s
`toFirstOfMonth`. -/
theorem C9_witness :
    toFirstOfMonth (['2','0','2','5'] ++ ['-'] ++ ['1','2'] ++ ['-'] ++ ['2','9'])
      = ['2','0','2','5'] ++ ['-'] ++ ['1','2'] ++ ['-', '0', '1'] :=
  (C9_month_normalization ['2','0','2','5'] ['1','2'] ['2','9']
    (by decide) (by decide) (by decide) (by decide) (by decide) (by decide)
    (by decide)).2.1

/-! ## Characterization of the `part_004` upcoming-due entries -/

theorem upcomingEntry_p4_eq_some (paid : JsMap ℚ) (todayD in30 : ℤ)
    (s : StatementRow) (hfin : s.statement_amount ≠ some JNum.nan) (it : DueItem) :
    upcomingEntry_p4 paid todayD in30 s = some it
      ↔ ∃ ds dy dm dd, s.due_date = some ds ∧ parseYMD ds = some (dy, dm, dd)
          ∧ 0 < amtQ s.statement_amount - lookup0 paid s.id
          ∧ todayD ≤ jsDateDays dy dm dd ∧ jsDateDays dy dm dd ≤ in30
          ∧ it = ⟨s, JNum.fin (amtQ s.statement_amount - lookup0 paid s.id),
              jsDateDays dy dm dd - todayD⟩ := by
  unfold upcomingEntry_p4
  rcases hdd : s.due_date with _ | ds
  · simp [hdd]
  · simp only [hdd, Option.some.injEq]
    by_cases hde : ds.isEmpty
    · have hnil : ds = [] := by simpa using hde
      subst hnil
      simp [parseYMD]
    · have hdef : ds.isEmpty = false := by simpa using hde
      rcases hp : parseYMD ds with _ | ⟨dy, dm, dd⟩
      · simp [hdef, hp]
      · simp only [hdef, Bool.false_eq_true, if_false, hp]
        rw [amount_getD_fin hfin, JNum.sub_fin]
        by_cases hpend : amtQ s.statement_amount - lookup0 paid s.id ≤ 0
        · have hnlt : ¬ (0 < amtQ s.statement_amount - lookup0 paid s.id) :=
            not_lt.mpr hpend
          simp [JNum.jle, hpend, hnlt]
        · have hlt : 0 < amtQ s.statement_amount - lookup0 paid s.id :=
            lt_of_not_le hpend
          have hjle : JNum.jle
              (JNum.fin (amtQ s.statement_amount - lookup0 paid s.id))
              (JNum.fin 0) = false := by
            simp [JNum.jle, hpend]
          simp only [hjle, Bool.false_eq_true, if_false]
          by_cases hwin : todayD ≤ jsDateDays dy dm dd ∧ jsDateDays dy dm dd ≤ in30
          · rw [if_pos hwin]
            constructor
            · intro h
              exact ⟨ds, dy, dm, dd, rfl, hp, hlt, hwin.1, hwin.2,
                (Option.some.inj h).symm⟩
            · rintro ⟨ds2, dy2, dm2, dd2, hds2, hpe, _, _, _, hit⟩
              cases hds2
              have heq : ((dy, dm, dd) : ℤ × ℤ × ℤ) = (dy2, dm2, dd2) :=
                Option.some.inj (hp.symm.trans hpe)
              cases heq
              rw [hit]
          · rw [if_neg hwin]
            constructor
            · intro h
              exact Option.noConfusion h
            · rintro ⟨ds2, dy2, dm2, dd2, hds2, hpe, _, hw1, hw2, _⟩
              cases hds2
              have heq : ((dy, dm, dd) : ℤ × ℤ × ℤ) = (dy2, dm2, dd2) :=
                Option.some.inj (hp.symm.trans hpe)
              cases heq
              exact absurd ⟨hw1, hw2⟩ hwin

/-- C5, amended: for the `part_004` projection (with a valid as-of date and
finite statement amounts), membership is exactly as the claim states: an item
appears iff its statement has a present due date that parses as a valid
`YYYY-MM-DD` calendar date, its pending (unclamped policy) is strictly
positive, and the due date lies in the inclusive window from the as-of day to
the as-of day + 30; the item's day-offset is the due day minus the as-of day
(0 when due exactly on the as-of date, and a due date 31 days out fails the
window).  The second `part_003` projection omits the pending-positivity filter
and also lists zero-pending statements (see the counterexample). -/
theorem C5_amended :
    ∀ (sts : List StatementRow) (paid : JsMap ℚ) (mt : JStr) (ty tm td : ℤ),
      parseYMD mt = some (ty, tm, td) →
      (∀ s ∈ sts, s.statement_amount ≠ some JNum.nan) →
      ∀ it : DueItem,
        it ∈ upcomingDue_p4 sts paid mt
          ↔ ∃ s ∈ sts, ∃ ds dy dm dd,
              s.due_date = some ds ∧ parseYMD ds = some (dy, dm, dd)
              ∧ 0 < amtQ s.statement_amount - lookup0 paid s.id
              ∧ jsDateDays ty tm td ≤ jsDateDays dy dm dd
              ∧ jsDateDays dy dm dd ≤ jsDateDays ty tm td + 30
              ∧ it = ⟨s, JNum.fin (amtQ s.statement_amount - lookup0 paid s.id),
                  jsDateDays dy dm dd - jsDateDays ty tm td⟩ := by
  intro sts paid mt ty tm td hmt hfin it
  have hmtne : mt.isEmpty = false := by
    rcases mt with _ | ⟨c, cs⟩
    · simp [parseYMD] at hmt
    · rfl
  unfold upcomingDue_p4
  simp only [hmtne, Bool.false_eq_true, if_false, hmt]
  rw [jsSortBy_mem, List.mem_filterMap]
  constructor
  · rintro ⟨s, hsmem, hE⟩
    obtain ⟨ds, dy, dm, dd, h1, h2, h3, h4, h5, h6⟩ :=
      (upcomingEntry_p4_eq_some paid _ _ s (hfin s hsmem) it).mp hE
    rw [jsDateDays_add] at h5
    exact ⟨s, hsmem, ds, dy, dm, dd, h1, h2, h3, h4, h5, h6⟩
  · rintro ⟨s, hsmem, ds, dy, dm, dd, h1, h2, h3, h4, h5, h6⟩
    refine ⟨s, hsmem, ?_⟩
    apply (upcomingEntry_p4_eq_some paid _ _ s (hfin s hsmem) it).mpr
    rw [jsDateDays_add]
    exact ⟨ds, dy, dm, dd, h1, h2, h3, h4, h5, h6⟩

/-- C5, witness: the spec §8 example — S1 billed 1200 with 700 paid, due
2025-01-20, as-of 2025-01-10 — appears in the `part_004` projection. -/
theorem C5_amended_witness :
    (⟨⟨['s','1'], ['c','1'], ['m'], none,
        some ['2','0','2','5','-','0','1','-','2','0'],
        some (JNum.fin 1200), none⟩,
      JNum.fin (amtQ (some (JNum.fin 1200))
        - lookup0 [(['s','1'], (700 : ℚ))] ['s','1']),
      jsDateDays 2025 1 20 - jsDateDays 2025 1 10⟩ : DueItem)
      ∈ upcomingDue_p4
        [⟨['s','1'], ['c','1'], ['m'], none,
          some ['2','0','2','5','-','0','1','-','2','0'],
          some (JNum.fin 1200), none⟩]
        [(['s','1'], (700 : ℚ))]
        ['2','0','2','5','-','0','1','-','1','0'] :=
  (C5_amended
    [⟨['s','1'], ['c','1'], ['m'], none,
      some ['2','0','2','5','-','0','1','-','2','0'],
      some (JNum.fin 1200), none⟩]
    [(['s','1'], (700 : ℚ))]
    ['2','0','2','5','-','0','1','-','1','0'] 2025 1 10 (by decide)
    (by
      intro s hs
      rw [List.mem_singleton.mp hs]
      intro hc
      exact JNum.noConfusion (Option.some.inj hc)) _).mpr
    ⟨_, List.mem_cons_self _ _,
      ['2','0','2','5','-','0','1','-','2','0'], 2025, 1, 20, rfl, by decide,
      by norm_num [amtQ, lookup0, jget], by decide, by decide, rfl⟩

/-- C5, counterexample: in the second `part_003` projection a statement with
pending exactly 0 (no billed amount, no payments) and a due date inside the
window is still listed — the claim requires it to be excluded. -/
theorem C5_counterexample :
    ((upcomingDue_v2
        [⟨['s','1'], ['c','1'], ['m'], none,
          some ['2','0','2','5','-','0','1','-','1','5'], none, none⟩]
        [] 2025 1 10 0).map (fun it => it.pending)
      = [JNum.max0 (JNum.fin 0 - JNum.fin 0)])
    ∧ JNum.max0 (JNum.fin 0 - JNum.fin 0) = JNum.fin 0 := by
  constructor
  · rfl
  · rw [JNum.sub_fin]
    show JNum.fin (max 0 (0 - 0)) = JNum.fin 0
    norm_num

/-- C6, counterexample: two statements with the same due date 2025-01-20 and
identifiers `"b"` and `"a"` (in that processing order) come out of the
`part_004` projection in the order `["b", "a"]` — not ordered by statement
identifier — and reversing the input order reverses the output, so the output
order is not uniquely determined by the input set. -/
theorem C6_counterexample :
    ((upcomingDue_p4
        [⟨['b'], ['c','1'], ['m'], none,
          some ['2','0','2','5','-','0','1','-','2','0'],
          some (JNum.fin 100), none⟩,
         ⟨['a'], ['c','1'], ['m'], none,
          some ['2','0','2','5','-','0','1','-','2','0'],
          some (JNum.fin 100), none⟩]
        [] ['2','0','2','5','-','0','1','-','1','0']).map (fun it => it.stmt.id)
      = [['b'], ['a']])
    ∧ ((upcomingDue_p4
        [⟨['a'], ['c','1'], ['m'], none,
          some ['2','0','2','5','-','0','1','-','2','0'],
          some (JNum.fin 100), none⟩,
         ⟨['b'], ['c','1'], ['m'], none,
          some ['2','0','2','5','-','0','1','-','2','0'],
          some (JNum.fin 100), none⟩]
        [] ['2','0','2','5','-','0','1','-','1','0']).map (fun it => it.stmt.id)
      = [['a'], ['b']])
    ∧ jstrLt ['a'] ['b'] = true := by
  have hfb : ∀ sid : JStr,
      upcomingEntry_p4 [] (jsDateDays 2025 1 10) (jsDateDays 2025 1 (10 + 30))
        ⟨sid, ['c','1'], ['m'], none,
          some ['2','0','2','5','-','0','1','-','2','0'],
          some (JNum.fin 100), none⟩
      = some ⟨⟨sid, ['c','1'], ['m'], none,
            some ['2','0','2','5','-','0','1','-','2','0'],
            some (JNum.fin 100), none⟩,
          JNum.fin (amtQ (some (JNum.fin 100)) - lookup0 [] sid),
          jsDateDays 2025 1 20 - jsDateDays 2025 1 10⟩ := by
    intro sid
    apply (upcomingEntry_p4_eq_some _ _ _ _
      (by intro hc; exact JNum.noConfusion (Option.some.inj hc)) _).mpr
    exact ⟨_, 2025, 1, 20, rfl, by decide,
      by norm_num [amtQ, lookup0, jget], by decide, by decide, rfl⟩
  refine ⟨?_, ?_, by decide⟩
  · simp only [upcomingDue_p4,
      (by decide : (['2','0','2','5','-','0','1','-','1','0'] : JStr).isEmpty = false),
      Bool.false_eq_true, if_false,
      (by decide : parseYMD ['2','0','2','5','-','0','1','-','1','0']
        = some ((2025 : ℤ), (1 : ℤ), (10 : ℤ)))]
    simp only [List.filterMap_cons, List.filterMap_nil, hfb]
    simp [jsSortBy, jsInsertBy, jstrLt_irrefl]
  · simp only [upcomingDue_p4,
      (by decide : (['2','0','2','5','-','0','1','-','1','0'] : JStr).isEmpty = false),
      Bool.false_eq_true, if_false,
      (by decide : parseYMD ['2','0','2','5','-','0','1','-','1','0']
        = some ((2025 : ℤ), (1 : ℤ), (10 : ℤ)))]
    simp only [List.filterMap_cons, List.filterMap_nil, hfb]
    simp [jsSortBy, jsInsertBy, jstrLt_irrefl]

/-- C6, amended: the `part_004` upcoming-due list is sorted ascending
(non-strictly) by the JS string comparison on due dates; the comparator
applies no statement-identifier tie-break, so items with equal due dates keep
the statements' processing order and the output order depends on the input
order (see the counterexample). -/
theorem C6_amended (sts : List StatementRow) (paid : JsMap ℚ) (mt : JStr) :
    (upcomingDue_p4 sts paid mt).Pairwise
      (fun a b =>
        ¬ jstrLt (b.stmt.due_date.getD []) (a.stmt.due_date.getD []) = true) := by
  unfold upcomingDue_p4
  split
  · exact List.Pairwise.nil
  · split
    · exact List.Pairwise.nil
    · apply pairwise_jsSortBy
      · intro a b hle
        simpa using hle
      · intro a b hle
        simp only [Bool.not_eq_false'] at hle
        intro hcontra
        have := jstrLt_trans hle hcontra
        rw [jstrLt_irrefl] at this
        exact Bool.noConfusion this
      · intro a b c hab hbc
        exact jstrLe_trans hab hbc

/-- C8: the claim fails on the second `part_003` dashboard — its `upcomingDue`
calls `new Date()` inside the aggregator (line 1162, directly under a comment
asserting the opposite), so the as-of date is not an explicit input.  With the
clock reading modelled as an explicit argument, the same unchanged snapshot
produces different outputs at two different clock readings: a statement due
2025-01-15 is listed when the clock reads 2025-01-10 and absent when it reads
2025-03-01. -/
theorem C8_clock_dependence :
    upcomingDue_v2
        [⟨['s','1'], ['c','1'], ['m'], none,
          some ['2','0','2','5','-','0','1','-','1','5'],
          some (JNum.fin 100), none⟩]
        [] 2025 1 10 0
      ≠ upcomingDue_v2
        [⟨['s','1'], ['c','1'], ['m'], none,
          some ['2','0','2','5','-','0','1','-','1','5'],
          some (JNum.fin 100), none⟩]
        [] 2025 3 1 0 := by
  intro h
  have h1 : (upcomingDue_v2
      [⟨['s','1'], ['c','1'], ['m'], none,
        some ['2','0','2','5','-','0','1','-','1','5'],
        some (JNum.fin 100), none⟩]
      [] 2025 1 10 0).length = 1 := by decide
  have h2 : (upcomingDue_v2
      [⟨['s','1'], ['c','1'], ['m'], none,
        some ['2','0','2','5','-','0','1','-','1','5'],
        some (JNum.fin 100), none⟩]
      [] 2025 3 1 0).length = 0 := by decide
  rw [h] at h1
  rw [h1] at h2
  exact Nat.noConfusion h2
